import Mathlib

/-!
Verification development for the CityJSONEditor core: shallow embeddings of
the import/export pipelines, the mesh builder, the vertex cleanup, the
semantic re-classification and the LOD3 window-placement engine, together
with proofs of the specified properties.
-/

namespace CJE

/-! ## Import pipeline: transform resolution (`ImportProcess.getTransformationParameters`) -/

/-- The optional `transform` block of a CityJSON document. -/
structure CJTransform where
  scale : List ℚ
  translate : List ℚ
  deriving DecidableEq, Repr

/-- The slice of an imported document read by `getTransformationParameters`:
the optional `transform`, `metadata.geographicalExtent`, and the vertex pool. -/
structure ImportDoc where
  transform : Option CJTransform
  geographicalExtent : Option (List ℚ)
  vertices : List (ℚ × ℚ × ℚ)
  deriving DecidableEq, Repr

/-- The state produced by `getTransformationParameters`: world origin,
scale parameters, and the (possibly shifted) unscaled vertices. -/
structure TransformParams where
  worldOrigin : List ℚ
  scaleParam : List ℚ
  unScaledVertices : List (ℚ × ℚ × ℚ)
  deriving DecidableEq, Repr

/-- Embedding of `ImportProcess.getTransformationParameters`: when `transform`
is present its `translate`/`scale` are used directly and vertices pass through
unchanged; otherwise a translate is synthesized from the geographical extent
(`[b0, b1, min b2 b5]`, or zeros when the extent is missing or too short),
the scale defaults to `[1,1,1]`, and the translate is subtracted from every
vertex. -/
def getTransformationParameters (d : ImportDoc) : TransformParams :=
  match d.transform with
  | some t =>
      { worldOrigin := t.translate
        scaleParam := t.scale
        unScaledVertices := d.vertices }
  | none =>
      let mins : ℚ × ℚ × ℚ :=
        match d.geographicalExtent with
        | some l =>
            if l ≠ [] ∧ 6 ≤ l.length then
              (l.getD 0 0, l.getD 1 0, min (l.getD 2 0) (l.getD 5 0))
            else (0, 0, 0)
        | none => (0, 0, 0)
      { worldOrigin := [mins.1, mins.2.1, mins.2.2]
        scaleParam := [1, 1, 1]
        unScaledVertices :=
          d.vertices.map (fun v => (v.1 - mins.1, v.2.1 - mins.2.1, v.2.2 - mins.2.2)) }

/-! ## Mesh exporter: semantics-key gating (`ExportCityObject`) -/

/-- A semantic surface descriptor as stored per entity. -/
structure SemSurf where
  stype : String
  sid : Option String := none
  sname : Option String := none
  parent : Option ℕ := none
  children : Option (List ℕ) := none
  deriving DecidableEq, Repr

/-- The flags of a mesh entity that gate semantics emission on export
(`cj_has_semantics`, `cj_dirty`, `cityJSONType`). -/
structure ExpEntityFlags where
  has_semantics : Bool
  dirty : Bool
  objType : String
  deriving DecidableEq, Repr

/-- Embedding of the `createJSON` guard of `ExportCityObject`: the geometry
block carries a `semantics` key iff `include_semantics` holds, the object is
not generic, and there is at least one non-null value or a non-empty surface
list. -/
def createJSONSemantics (includeSem : Bool) (objType : String)
    (vals : List (Option ℕ)) (surfs : List SemSurf) :
    Option (List (Option ℕ) × List SemSurf) :=
  if includeSem ∧ objType ≠ "GenericCityObject" ∧ (vals.any (·.isSome) ∨ surfs ≠ []) then
    some (vals, surfs)
  else none

/-- Embedding of the semantics part of `ExportCityObject.execute`/`createJSON`:
`include_semantics = has_semantics or dirty`; `getSemantics` (abstracted as
`computeSem`) runs only for non-generic objects with `include_semantics` set,
otherwise the value/surface accumulators stay empty; the produced geometry
block then carries `semantics` only under `createJSONSemantics`' guard. -/
def exportEntitySemantics (e : ExpEntityFlags)
    (computeSem : Unit → List (Option ℕ) × List SemSurf) :
    Option (List (Option ℕ) × List SemSurf) :=
  let includeSem := e.has_semantics || e.dirty
  let computed :=
    if e.objType = "GenericCityObject" then ([], [])
    else if includeSem then computeSem () else ([], [])
  createJSONSemantics includeSem e.objType computed.1 computed.2

/-! ## JSON documents, the changed-only early exit, and the baseline patch -/

/-- A JSON value, as produced by parsing a CityJSON file. -/
inductive Json where
  | null : Json
  | jb (v : Bool) : Json
  | jn (v : ℚ) : Json
  | js (v : String) : Json
  | jarr (elems : List Json) : Json
  | jobj (fields : List (String × Json)) : Json

/-- A parsed top-level document: an association list of top-level keys. -/
abbrev JDoc := List (String × Json)

/-- Dictionary lookup on an association list (first match wins, as in a
Python `dict`, whose keys are unique). -/
def jlookup : JDoc → String → Option Json
  | [], _ => none
  | (k, v) :: rest, q => if k = q then some v else jlookup rest q

/-- The keys of `baseline.get("CityObjects") or {}`. -/
def docCityObjectIds (d : JDoc) : List String :=
  match jlookup d "CityObjects" with
  | some (Json.jobj fs) => fs.map Prod.fst
  | _ => []

/-- A gathered scene object as seen by `ExportProcess`: its export id
(`cj_source_id`) and its `cj_dirty` flag. -/
structure SceneObj where
  source_id : String
  dirty : Bool
  deriving DecidableEq, Repr

/-- The dirty list computed by `ExportProcess.execute` in changed-only mode:
an object is dirty when its `cj_dirty` flag is set or its export id is absent
from the baseline's `CityObjects`. -/
def changedOnlyDirtyIds (baseline : JDoc) (objs : List SceneObj) : List String :=
  (objs.filter
    (fun o => o.dirty || !((docCityObjectIds baseline).contains o.source_id))).map
    (·.source_id)

/-- Embedding of the top of `ExportProcess.execute`: in changed-only mode with
a (non-empty, hence truthy) baseline and an empty dirty list, the baseline
document is written back verbatim; every other case runs the full export
pipeline, abstracted here as `full`. -/
def exportExecute (changedOnly : Bool) (baseline : Option JDoc)
    (objs : List SceneObj) (full : JDoc) : JDoc :=
  match baseline with
  | some b =>
      if changedOnly = true ∧ b.isEmpty = false ∧ changedOnlyDirtyIds b objs = [] then b
      else full
  | none => full

/-- Python-style `patched[key] = value` on an association list: replace the
key's binding in place when present, append otherwise. -/
def setKey (d : JDoc) (k : String) (v : Json) : JDoc :=
  if d.any (fun p => p.1 = k) then
    d.map (fun p => if p.1 = k then (k, v) else p)
  else d ++ [(k, v)]

/-- The key list of `ExportProcess.applyBaselinePatch`. -/
def patchKeys : List String :=
  ["CityObjects", "vertices", "appearance", "transform", "metadata", "version",
   "type", "extensions"]

/-- Embedding of `ExportProcess.applyBaselinePatch`: when patch mode is on and
a parseable baseline exists, copy into the baseline every listed key that is
present in the freshly computed export; otherwise write the fresh export. -/
def applyBaselinePatch (patchMode : Bool) (baseline : Option JDoc)
    (freshDoc : JDoc) : JDoc :=
  if patchMode then
    match baseline with
    | none => freshDoc
    | some b =>
        patchKeys.foldl
          (fun acc k =>
            match jlookup freshDoc k with
            | some v => setKey acc k v
            | none => acc) b
  else freshDoc

/-- The seven keys the spec names as freshly recomputed on patch export. -/
def claimPatchKeys : List String :=
  ["CityObjects", "vertices", "appearance", "transform", "metadata", "version",
   "type"]

/-! ## Bytes written on export: json.dumps, json.loads, and the baseline text

`ImportProcess.execute` stores the imported file's raw text as the
`CJE_BASELINE` baseline; `ExportProcess._load_baseline` parses that text with
`json.loads`, and `ExportProcess.writeData` always writes
`json.dumps(self.jsonExport)`. So the bytes the changed-only early exit
produces are the canonical compact re-serialization of the parsed baseline,
not the stored file text itself. The serializer and parser below embed the
`json` library behavior these calls rely on (default separators `", "` and
`": "`, `ensure_ascii` escaping, whitespace-tolerant strict decoding). -/

/-- Lower-case hexadecimal digit. -/
def hexDigit (n : ℕ) : Char :=
  if n < 10 then Char.ofNat (48 + n) else Char.ofNat (87 + n)

/-- Four lower-case hex digits, as in the `\uXXXX` escapes `json.dumps`
emits. -/
def hex4 (n : ℕ) : String :=
  String.mk [hexDigit (n / 4096 % 16), hexDigit (n / 256 % 16),
             hexDigit (n / 16 % 16), hexDigit (n % 16)]

/-- Escape one character the way `json.dumps` does with its default
`ensure_ascii=True`: short escapes for quote, backslash and the usual control
characters, `\uXXXX` for other control and non-ASCII characters, and a
surrogate pair for characters beyond the basic multilingual plane. -/
def escChar (c : Char) : String :=
  if c = '"' then "\\\""
  else if c = '\\' then "\\\\"
  else if c = '\n' then "\\n"
  else if c = '\t' then "\\t"
  else if c = '\r' then "\\r"
  else if c.toNat = 8 then "\\b"
  else if c.toNat = 12 then "\\f"
  else if c.toNat < 32 then "\\u" ++ hex4 c.toNat
  else if c.toNat ≤ 126 then String.singleton c
  else if c.toNat < 65536 then "\\u" ++ hex4 c.toNat
  else
    "\\u" ++ hex4 (55296 + (c.toNat - 65536) / 1024)
      ++ "\\u" ++ hex4 (56320 + (c.toNat - 65536) % 1024)

/-- Escape every character of a string for a JSON string literal. -/
def escString (s : String) : String :=
  String.join (s.toList.map escChar)

/-- Smallest decimal exponent making the rational an integer (every Python
float has one, since floats are binary fractions). -/
def decExp (q : ℚ) : ℕ :=
  ((List.range 40).filter (fun k => (q * 10 ^ k).den = 1)).headD 0

/-- Left-pad with zeros to the requested width. -/
def padZeros (s : String) (k : ℕ) : String :=
  String.mk (List.replicate (k - s.length) '0') ++ s

/-- Number printing as `json.dumps` performs it: integers via `int` repr,
non-integers as their exact finite decimal expansion. (Python's float repr is
the shortest round-tripping decimal; this model agrees with it on short exact
decimals, and no theorem in this development serializes any other number.) -/
def jnumRepr (q : ℚ) : String :=
  if q.den = 1 then toString q.num
  else
    let k := decExp q
    let n := (q * 10 ^ k).num
    (if n < 0 then "-" else "")
      ++ toString (n.natAbs / 10 ^ k) ++ "."
      ++ padZeros (toString (n.natAbs % 10 ^ k)) k

mutual

/-- `json.dumps` with its defaults (no indent): compact output with `", "`
between items and `": "` after keys, keys and strings escaped. This is what
`ExportProcess.writeData` writes to the output file. -/
def jdump : Json → String
  | Json.null => "null"
  | Json.jb true => "true"
  | Json.jb false => "false"
  | Json.jn q => jnumRepr q
  | Json.js s => "\"" ++ escString s ++ "\""
  | Json.jarr xs => "[" ++ jdumpArr xs ++ "]"
  | Json.jobj fs => "\x7b" ++ jdumpObj fs ++ "\x7d"

/-- Array elements joined by the default item separator. -/
def jdumpArr : List Json → String
  | [] => ""
  | [x] => jdump x
  | x :: y :: xs => jdump x ++ ", " ++ jdumpArr (y :: xs)

/-- Object members joined by the default separators. -/
def jdumpObj : List (String × Json) → String
  | [] => ""
  | [(k, v)] => "\"" ++ escString k ++ "\": " ++ jdump v
  | (k, v) :: p :: fs =>
      "\"" ++ escString k ++ "\": " ++ jdump v ++ ", " ++ jdumpObj (p :: fs)

end

/-- The whitespace characters the JSON decoder skips between tokens. -/
def jWs (c : Char) : Bool := c = ' ' || c = '\t' || c = '\n' || c = '\r'

/-- Drop leading JSON whitespace. -/
def skipWs : List Char → List Char
  | [] => []
  | c :: cs => if jWs c then skipWs cs else c :: cs

/-- The single-character string escapes `json.loads` accepts. -/
def escDecode (e : Char) : Option Char :=
  if e = '"' then some '"'
  else if e = '\\' then some '\\'
  else if e = '/' then some '/'
  else if e = 'b' then some (Char.ofNat 8)
  else if e = 'f' then some (Char.ofNat 12)
  else if e = 'n' then some '\n'
  else if e = 'r' then some '\r'
  else if e = 't' then some '\t'
  else none

/-- Value of one hexadecimal digit. -/
def hexVal (c : Char) : Option ℕ :=
  if '0' ≤ c ∧ c ≤ '9' then some (c.toNat - 48)
  else if 'a' ≤ c ∧ c ≤ 'f' then some (c.toNat - 87)
  else if 'A' ≤ c ∧ c ≤ 'F' then some (c.toNat - 55)
  else none

/-- Decode a JSON string body after the opening quote, in the decoder's
default strict mode: escapes are decoded, a raw control character or a
truncated escape is an error. Returns the decoded characters and the input
after the closing quote. (Surrogate-pair recombination of adjacent `\u`
escapes is not modeled; no document in this development uses them.) -/
def parseStrBody : List Char → Option (List Char × List Char)
  | [] => none
  | c :: cs =>
    if c = '"' then some ([], cs)
    else if c = '\\' then
      match cs with
      | 'u' :: a :: b :: c2 :: d :: cs' =>
          match hexVal a, hexVal b, hexVal c2, hexVal d with
          | some ha, some hb, some hc, some hd =>
              (parseStrBody cs').map fun r =>
                (Char.ofNat (4096 * ha + 256 * hb + 16 * hc + hd) :: r.1, r.2)
          | _, _, _, _ => none
      | e :: cs' =>
          match escDecode e with
          | some d => (parseStrBody cs').map fun r => (d :: r.1, r.2)
          | none => none
      | [] => none
    else if c.toNat < 32 then none
    else (parseStrBody cs).map fun r => (c :: r.1, r.2)

/-- ASCII decimal digit test. -/
def isJDigit (c : Char) : Bool := '0' ≤ c && c ≤ '9'

/-- Split off a maximal run of decimal digits. -/
def takeDigits : List Char → List Char × List Char
  | [] => ([], [])
  | c :: cs =>
    if isJDigit c then
      let r := takeDigits cs
      (c :: r.1, r.2)
    else ([], c :: cs)

/-- Numeric value of a digit run. -/
def digitsVal (ds : List Char) : ℕ :=
  ds.foldl (fun a c => 10 * a + (c.toNat - 48)) 0

/-- Parse a JSON number per the RFC 8259 grammar the decoder enforces:
optional minus, integer part without leading zeros, optional fraction,
optional exponent. The value is returned exactly, as a rational. -/
def parseNumber (cs : List Char) : Option (ℚ × List Char) :=
  let (neg, cs1) :=
    match cs with
    | '-' :: r => (true, r)
    | _ => (false, cs)
  let (ds, cs2) := takeDigits cs1
  if ds.isEmpty then none
  else if 1 < ds.length ∧ ds.headD '0' = '0' then none
  else
    let step1 : Option (ℚ × List Char) :=
      match cs2 with
      | '.' :: r =>
          let (fs, r') := takeDigits r
          if fs.isEmpty then none
          else some ((digitsVal ds : ℚ) + (digitsVal fs : ℚ) / 10 ^ fs.length, r')
      | _ => some ((digitsVal ds : ℚ), cs2)
    match step1 with
    | none => none
    | some (v, cs3) =>
      let step2 : Option (ℚ × List Char) :=
        match cs3 with
        | 'e' :: r | 'E' :: r =>
            let (esign, r1) :=
              match r with
              | '+' :: r2 => (false, r2)
              | '-' :: r2 => (true, r2)
              | _ => (false, r)
            let (es, r2) := takeDigits r1
            if es.isEmpty then none
            else if esign then some (v / 10 ^ digitsVal es, r2)
            else some (v * 10 ^ digitsVal es, r2)
        | _ => some (v, cs3)
      match step2 with
      | none => none
      | some (v2, cs4) => some (if neg then -v2 else v2, cs4)

mutual

/-- Parse one JSON value (leading whitespace already skipped); the fuel only
bounds nesting depth and is supplied as the input length, which always
suffices. -/
def parseVal : ℕ → List Char → Option (Json × List Char)
  | 0, _ => none
  | _ + 1, [] => none
  | fuel + 1, c :: rest =>
    if c = '\x7b' then
      match skipWs rest with
      | '\x7d' :: r => some (Json.jobj [], r)
      | r => (parseMembers fuel r).map fun p => (Json.jobj p.1, p.2)
    else if c = '[' then
      match skipWs rest with
      | ']' :: r => some (Json.jarr [], r)
      | r => (parseElems fuel r).map fun p => (Json.jarr p.1, p.2)
    else if c = '"' then
      (parseStrBody rest).map fun p => (Json.js (String.mk p.1), p.2)
    else if c = 't' then
      match rest with
      | 'r' :: 'u' :: 'e' :: r => some (Json.jb true, r)
      | _ => none
    else if c = 'f' then
      match rest with
      | 'a' :: 'l' :: 's' :: 'e' :: r => some (Json.jb false, r)
      | _ => none
    else if c = 'n' then
      match rest with
      | 'u' :: 'l' :: 'l' :: r => some (Json.null, r)
      | _ => none
    else
      (parseNumber (c :: rest)).map fun p => (Json.jn p.1, p.2)

/-- Parse the members of a non-empty object, the first member's leading
whitespace already skipped. -/
def parseMembers : ℕ → List Char → Option (List (String × Json) × List Char)
  | 0, _ => none
  | fuel + 1, cs =>
    match cs with
    | '"' :: rest =>
      match parseStrBody rest with
      | none => none
      | some (kcs, r1) =>
        match skipWs r1 with
        | ':' :: r2 =>
          match parseVal fuel (skipWs r2) with
          | none => none
          | some (v, r3) =>
            match skipWs r3 with
            | ',' :: r4 =>
                (parseMembers fuel (skipWs r4)).map fun p =>
                  ((String.mk kcs, v) :: p.1, p.2)
            | '\x7d' :: r4 => some ([(String.mk kcs, v)], r4)
            | _ => none
        | _ => none
    | _ => none

/-- Parse the elements of a non-empty array, the first element's leading
whitespace already skipped. -/
def parseElems : ℕ → List Char → Option (List Json × List Char)
  | 0, _ => none
  | fuel + 1, cs =>
    match parseVal fuel cs with
    | none => none
    | some (v, r1) =>
      match skipWs r1 with
      | ',' :: r2 => (parseElems fuel (skipWs r2)).map fun p => (v :: p.1, p.2)
      | ']' :: r2 => some ([v], r2)
      | _ => none

end

/-- `json.loads`: parse one value with surrounding whitespace allowed; any
trailing non-whitespace rejects the document. -/
def jloads (s : String) : Option Json :=
  match parseVal (s.length + 1) (skipWs s.toList) with
  | some (v, rest) => if (skipWs rest).isEmpty then some v else none
  | none => none

/-- `ImportProcess.execute` stores the imported file's raw text, unmodified,
in the `CJE_BASELINE` text block. -/
def storedBaseline (fileText : String) : String := fileText

/-- `ExportProcess._load_baseline`: read the `CJE_BASELINE` text block and
parse it; a missing block or a parse failure yields `None`. (A baseline that
parses to a non-object would crash `execute` on `.get` before the early exit
and is outside the model.) -/
def loadBaselineDoc (txt : Option String) : Option JDoc :=
  match txt with
  | none => none
  | some s =>
    match jloads s with
    | some (Json.jobj d) => some d
    | _ => none

/-- The bytes `ExportProcess.execute` writes: `writeData` dumps `jsonExport`,
which the changed-only early exit sets to a deep copy of the parsed baseline
(and every other path sets to the full pipeline's document). -/
def exportExecuteBytes (changedOnly : Bool) (baselineText : Option String)
    (objs : List SceneObj) (full : JDoc) : String :=
  jdump (Json.jobj (exportExecute changedOnly (loadBaselineDoc baselineText) objs full))

/-- A well-formed CityJSON baseline file already in compact form except for a
single trailing newline — the way most editors and exporters terminate a
file. -/
def roundtripFileText : String :=
  "\x7b\"type\": \"CityJSON\", \"version\": \"2.0\", \"CityObjects\": \x7b\"b1\": \x7b\"type\": \"Building\"\x7d\x7d, \"vertices\": []\x7d\n"

/-- The same baseline in the canonical compact form `json.dumps` produces. -/
def canonicalFileText : String :=
  "\x7b\"type\": \"CityJSON\", \"CityObjects\": \x7b\"b1\": \x7b\"type\": \"Building\"\x7d\x7d\x7d"

theorem jlookup_cons (pk : String) (pv : Json) (l : JDoc) (q : String) :
    jlookup ((pk, pv) :: l) q = if pk = q then some pv else jlookup l q := rfl

theorem jlookup_replace_of_any (d : JDoc) (k : String) (v : Json)
    (h : d.any (fun p => p.1 = k) = true) :
    jlookup (d.map (fun p => if p.1 = k then (k, v) else p)) k = some v := by
  induction d with
  | nil => simp at h
  | cons p rest ih =>
      obtain ⟨pk, pv⟩ := p
      simp only [List.any_cons, Bool.or_eq_true_iff] at h
      by_cases hp : pk = k
      · subst hp
        simp [jlookup_cons]
      · have hr : rest.any (fun p => p.1 = k) = true := by
          rcases h with h1 | h2
          · exact absurd (by simpa using h1) hp
          · exact h2
        simp only [List.map_cons]
        dsimp only
        rw [if_neg hp, jlookup_cons, if_neg hp]
        exact ih hr

theorem jlookup_replace_ne (d : JDoc) (k q : String) (v : Json) (h : q ≠ k) :
    jlookup (d.map (fun p => if p.1 = k then (k, v) else p)) q = jlookup d q := by
  induction d with
  | nil => rfl
  | cons p rest ih =>
      obtain ⟨pk, pv⟩ := p
      by_cases hp : pk = k
      · subst hp
        simp only [List.map_cons, if_true]
        rw [jlookup_cons, jlookup_cons]
        by_cases hq : pk = q
        · exact absurd hq.symm h
        · rw [if_neg hq, if_neg hq, ih]
      · simp only [List.map_cons]
        dsimp only
        rw [if_neg hp, jlookup_cons, jlookup_cons]
        by_cases hq : pk = q
        · simp [hq]
        · rw [if_neg hq, if_neg hq, ih]

theorem jlookup_append_single_ne (d : JDoc) (k q : String) (v : Json)
    (h : q ≠ k) : jlookup (d ++ [(k, v)]) q = jlookup d q := by
  induction d with
  | nil => simpa [jlookup, jlookup_cons] using fun hk => absurd hk.symm h
  | cons p rest ih =>
      obtain ⟨pk, pv⟩ := p
      rw [List.cons_append, jlookup_cons, jlookup_cons]
      by_cases hq : pk = q
      · simp [hq]
      · rw [if_neg hq, if_neg hq, ih]

theorem jlookup_append_single_self (d : JDoc) (k : String) (v : Json)
    (h : ¬d.any (fun p => p.1 = k) = true) :
    jlookup (d ++ [(k, v)]) k = some v := by
  induction d with
  | nil => simp [jlookup, jlookup_cons]
  | cons p rest ih =>
      obtain ⟨pk, pv⟩ := p
      simp only [List.any_cons, Bool.or_eq_true_iff, not_or] at h
      have hp : ¬pk = k := by simpa using h.1
      rw [List.cons_append, jlookup_cons, if_neg hp]
      exact ih (by simpa using h.2)

theorem jlookup_setKey_self (d : JDoc) (k : String) (v : Json) :
    jlookup (setKey d k v) k = some v := by
  unfold setKey
  by_cases h : d.any (fun p => p.1 = k)
  · rw [if_pos h]
    exact jlookup_replace_of_any d k v h
  · rw [if_neg h]
    exact jlookup_append_single_self d k v h

theorem jlookup_setKey_ne (d : JDoc) (k k' : String) (v : Json) (h : k' ≠ k) :
    jlookup (setKey d k v) k' = jlookup d k' := by
  unfold setKey
  by_cases hin : d.any (fun p => p.1 = k)
  · rw [if_pos hin]
    exact jlookup_replace_ne d k k' v h
  · rw [if_neg hin]
    exact jlookup_append_single_ne d k k' v h

theorem jlookup_isSome_key_mem (d : JDoc) (k : String) (v : Json)
    (h : jlookup d k = some v) : k ∈ d.map Prod.fst := by
  induction d with
  | nil => simp [jlookup] at h
  | cons p rest ih =>
      simp only [jlookup] at h
      by_cases hp : p.1 = k
      · simp [hp]
      · simp only [if_neg hp] at h
        simpa using Or.inr (ih h)

theorem jlookup_patch_foldl (ks : List String) (b freshDoc : JDoc) (k : String) :
    jlookup
      (ks.foldl
        (fun acc q =>
          match jlookup freshDoc q with
          | some v => setKey acc q v
          | none => acc) b) k
    = if k ∈ ks ∧ (jlookup freshDoc k).isSome then jlookup freshDoc k
      else jlookup b k := by
  induction ks generalizing b with
  | nil => simp
  | cons k0 ks ih =>
      cases hf : jlookup freshDoc k0 with
      | none =>
          simp only [List.foldl_cons, hf]
          rw [ih]
          by_cases hk : k = k0
          · subst hk
            have hs : (jlookup freshDoc k).isSome = false := by
              rw [hf]
              rfl
            simp [hs]
          · simp [hk]
      | some v =>
          simp only [List.foldl_cons, hf]
          rw [ih]
          by_cases hk : k = k0
          · subst hk
            have hs : (jlookup freshDoc k).isSome = true := by
              rw [hf]
              rfl
            by_cases hmem : k ∈ ks
            · simp [hmem, hs]
            · simp [hmem, hs, hf, jlookup_setKey_self]
          · rw [jlookup_setKey_ne b k0 k v hk]
            simp [hk]

/-! ## Opening placement: validation (`validate_wall_face`) and commit
(`CITYJSON_OT_place_window_modal._create_window_object`) -/

/-- Python `needle in hay` on strings: some rotation of `hay` starts with
`needle`. -/
def strContains (hay needle : String) : Bool :=
  (List.range (hay.length + 1)).any
    (fun k => needle.toList.isPrefixOf (hay.toList.drop k))

/-- The data of a Blender object read by `validate_wall_face`: the
`cityJSONType` custom property, the face areas of the mesh (none = no mesh
data), the `cje_semantic_index` face attribute (none = attribute missing),
and the `cj_semantic_surfaces` list. -/
structure VObj where
  objType : String
  faceAreas : Option (List ℚ)
  tags : Option (List ℤ)
  surfaces : List SemSurf
  deriving DecidableEq, Repr

/-- The optional semantic check of `validate_wall_face` (check 3): when the
semantic attribute and a non-empty surface list exist and the face's tag is
a valid surface index, a face typed `Window`/`Door` and a non-empty type not
containing `"Wall"` are rejected; otherwise the check falls through. -/
def semanticReject (o : VObj) (faceIndex : ℤ) : Option (Bool × String) :=
  match o.tags with
  | none => none
  | some ts =>
      if o.surfaces ≠ [] ∧ faceIndex < (ts.length : ℤ) then
        let semanticIdx := ts.getD faceIndex.toNat 0
        if 0 ≤ semanticIdx ∧ semanticIdx < (o.surfaces.length : ℤ) then
          let stype := (o.surfaces.getD semanticIdx.toNat { stype := "" }).stype
          if stype = "Window" ∨ stype = "Door" then
            some (false,
              "Cannot add window to " ++ stype ++ ". Select a WallSurface.")
          else if stype ≠ "" ∧ strContains stype "Wall" = false then
            some (false,
              "Face is not a wall (type: " ++ stype ++ "). Select a WallSurface.")
          else none
        else none
      else none

/-- Embedding of `validate_wall_face`: Building check, face-index check, the
optional semantic check (rejecting Window/Door faces and non-wall-typed
faces), and the 0.1 m² minimum-area check, in the order of the source. -/
def validateWallFace (o : VObj) (faceIndex : ℤ) : Bool × String :=
  if ¬(o.objType = "Building" ∨ o.objType = "BuildingPart") then
    (false, "Object is not a Building (type: " ++ o.objType ++ ")")
  else
    match o.faceAreas with
    | none => (false, "Object has no mesh data")
    | some areas =>
        if faceIndex < 0 ∨ (areas.length : ℤ) ≤ faceIndex then
          (false, "Invalid face index")
        else
          match semanticReject o faceIndex with
          | some r => r
          | none =>
              if areas.getD faceIndex.toNat 0 < 1 / 10 then
                (false, "Face too small. Minimum area: 0.1 m2")
              else (true, "")

/-- Embedding of the `invoke` entry of the window-placement operator: a
failed validation reports the error and cancels without touching the object;
a successful one enters the modal session (also without mutation — faces are
only added by the commit step). -/
def placeWindowInvoke (o : VObj) (faceIndex : ℤ) :
    Except String Unit × VObj :=
  let r := validateWallFace o faceIndex
  if r.1 then (Except.ok (), o) else (Except.error r.2, o)

/-- A 4×4 matrix over ℚ, row by row, as built by `get_face_ortho_matrix`. -/
structure Mat4Q where
  r0 : ℚ × ℚ × ℚ × ℚ
  r1 : ℚ × ℚ × ℚ × ℚ
  r2 : ℚ × ℚ × ℚ × ℚ
  r3 : ℚ × ℚ × ℚ × ℚ
  deriving DecidableEq, Repr

/-- `matrix @ point` for an affine point (w = 1), as in `mathutils`. -/
def mat4ApplyQ (m : Mat4Q) (p : ℚ × ℚ × ℚ) : ℚ × ℚ × ℚ :=
  (m.r0.1 * p.1 + m.r0.2.1 * p.2.1 + m.r0.2.2.1 * p.2.2 + m.r0.2.2.2,
   m.r1.1 * p.1 + m.r1.2.1 * p.2.1 + m.r1.2.2.1 * p.2.2 + m.r1.2.2.2,
   m.r2.1 * p.1 + m.r2.2.1 * p.2.1 + m.r2.2.2.1 * p.2.2 + m.r2.2.2.2)

/-- The editable state of a mesh entity touched by window placement: private
vertex and face lists, the per-face semantic tag attribute (none = attribute
missing), the semantic-surface list, and the `cj_dirty` / `LOD` properties. -/
structure WEntity where
  verts : List (ℚ × ℚ × ℚ)
  faces : List (List ℕ)
  tags : Option (List ℤ)
  surfaces : List SemSurf
  dirty : Bool
  lod : ℚ
  deriving DecidableEq, Repr

/-- Embedding of `_create_window_object`: rectangle dimensions from the two
recorded local points, minimum-size check, parent-tag read, four corners
through the face matrix appended as vertices plus one quad face, attribute
resize (new entries default to 0; a fresh attribute is zero-filled), the new
`Window` surface with `parent`, the parent's `children` update — which, as in
the source, is lost when the parent surface has no `children` list, because
the default list produced by `.get("children", [])` is never stored back —
the new face's tag, `dirty`, and `LOD = 3.0`. -/
def windowCommit (minSize : ℚ) (faceMatrix : Mat4Q) (p1 p2 : ℚ × ℚ × ℚ)
    (targetFaceIdx : ℤ) (e : WEntity) : Option WEntity :=
  let width := |p2.1 - p1.1|
  let height := |p2.2.1 - p1.2.1|
  let centerU := (p1.1 + p2.1) / 2
  let centerV := (p1.2.1 + p2.2.1) / 2
  if width < minSize ∨ height < minSize then none
  else
    let surfaces := e.surfaces
    let parentIdx : Option ℤ :=
      match e.tags with
      | some ts =>
          if 0 ≤ targetFaceIdx ∧ targetFaceIdx < (ts.length : ℤ) then
            let p := ts.getD targetFaceIdx.toNat 0
            if p < 0 ∨ (surfaces.length : ℤ) ≤ p then none else some p
          else none
      | none => none
    let hw := width / 2
    let hh := height / 2
    let cornersLocal : List (ℚ × ℚ × ℚ) :=
      [(centerU - hw, centerV - hh, 0), (centerU + hw, centerV - hh, 0),
       (centerU + hw, centerV + hh, 0), (centerU - hw, centerV + hh, 0)]
    let cornersWorld := cornersLocal.map (mat4ApplyQ faceMatrix)
    let n := e.verts.length
    let verts₁ := e.verts ++ cornersWorld
    let faces₁ := e.faces ++ [[n, n + 1, n + 2, n + 3]]
    let newFaceIdx := faces₁.length - 1
    let tags₁ : List ℤ :=
      match e.tags with
      | some ts => ts ++ [0]
      | none => List.replicate faces₁.length 0
    if tags₁.length ≠ faces₁.length then none
    else
      let windowIdx := surfaces.length
      let newSurface : SemSurf :=
        { stype := "Window", sid := some "Window_gen",
          sname := some ("Window_" ++ toString (windowIdx + 1)),
          parent := parentIdx.map Int.toNat }
      let surfaces₁ :=
        match parentIdx with
        | none => surfaces
        | some p =>
            let parentSurf := surfaces.getD p.toNat { stype := "" }
            match parentSurf.children with
            | some l =>
                surfaces.set p.toNat
                  { parentSurf with
                    children := some (if windowIdx ∈ l then l else l ++ [windowIdx]) }
            | none => surfaces
      let surfaces₂ := surfaces₁ ++ [newSurface]
      let tags₂ := tags₁.set newFaceIdx (windowIdx : ℤ)
      some { verts := verts₁, faces := faces₁, tags := some tags₂,
             surfaces := surfaces₂, dirty := true, lod := 3 }

/-! ## Mesh builder (`Mesh.extractVertexMapping` / `Mesh.createBlenderMesh`) -/

/-- A CityJSON face as the builder sees it: either a list of rings (the
normal case — `face[0]` is a list) or, tolerated by the source's
`isinstance` check, a flat index list. -/
inductive CJFace where
  | rings (rs : List (List ℤ)) : CJFace
  | flat (vs : List ℤ) : CJFace
  deriving DecidableEq, Repr

/-- The outer ring selected by `extractVertexMapping`:
`face[0] if isinstance(face[0], list) else face`, with the empty-face guard
folded in (an empty face yields an empty — hence skipped — ring). -/
def outerOf : CJFace → List ℤ
  | .rings [] => []
  | .rings (r :: _) => r
  | .flat vs => vs

/-- The boundary structure of a geometry: shells of faces for `Solid`, a
face list for `MultiSurface`. -/
inductive CJBoundaries where
  | solid (shells : List (List CJFace)) : CJBoundaries
  | multi (faces : List CJFace) : CJBoundaries
  deriving DecidableEq, Repr

/-- Embedding of `Mesh.extractVertexMapping` for `Solid` / `MultiSurface`
geometry: iterate shells then faces (resp. faces directly), keep only each
face's non-empty outer ring, skipping empty faces and empty outer rings. -/
def extractVertexMapping : CJBoundaries → List (List ℤ)
  | .solid shells =>
      (shells.map (fun shell => (shell.map outerOf).filter (· ≠ []))).flatten
  | .multi faces => (faces.map outerOf).filter (· ≠ [])

/-- The total number of faces listed in a geometry's boundaries (every face
of every shell for `Solid`). -/
def boundariesFaceCount : CJBoundaries → ℕ
  | .solid shells => (shells.map List.length).sum
  | .multi faces => faces.length

/-- A 3D vertex-pool entry. -/
abbrev V3 := ℚ × ℚ × ℚ

/-- Python list indexing `l[i]` (negative indices address from the back;
out-of-range yields `none`, i.e. an `IndexError`). -/
def pyGet {α : Type} (l : List α) (i : ℤ) : Option α :=
  if 0 ≤ i then l[i.toNat]?
  else if 0 ≤ (l.length : ℤ) + i then l[((l.length : ℤ) + i).toNat]?
  else none

/-- `list.index(value)` / first-insertion position: the index of the first
occurrence. -/
def firstIdx {α : Type} [DecidableEq α] : List α → α → ℕ
  | [], _ => 0
  | v :: rest, c => if v = c then 0 else firstIdx rest c + 1

/-- One step of the builder's per-object vertex deduplication: an already
seen coordinate reuses its first index (`meshVertices.index`), a new one is
appended. -/
def addCoord (mv : List V3) (c : V3) : List V3 × ℕ :=
  if c ∈ mv then (mv, firstIdx mv c) else (mv ++ [c], mv.length)

/-- The inner loop of `createBlenderMesh` over one face's outer ring:
look up each referenced vertex in the pool and remap it to its local index,
threading the growing local vertex list. -/
def buildFace (vs : List V3) : List V3 → List ℤ → Option (List V3 × List ℕ)
  | mv, [] => some (mv, [])
  | mv, i :: rest =>
      match pyGet vs i with
      | none => none
      | some c =>
          match buildFace vs (addCoord mv c).1 rest with
          | none => none
          | some (mvf, js) => some (mvf, (addCoord mv c).2 :: js)

/-- The outer loop of `createBlenderMesh` over all faces. -/
def buildFaces (vs : List V3) :
    List V3 → List (List ℤ) → Option (List V3 × List (List ℕ))
  | mv, [] => some (mv, [])
  | mv, f :: fs =>
      match buildFace vs mv f with
      | none => none
      | some (mv₁, nf) =>
          match buildFaces vs mv₁ fs with
          | none => none
          | some (mvf, nfs) => some (mvf, nf :: nfs)

/-- Embedding of `Mesh.createBlenderMesh`: deduplicate the referenced pool
vertices into a local position list and remap every face to local indices. -/
def createBlenderMesh (vs : List V3) (faces : List (List ℤ)) :
    Option (List V3 × List (List ℕ)) :=
  buildFaces vs [] faces

/-! ## Bulk semantic re-classification (`CalculateSemanticsOperator.execute`) -/

/-- Python's `math.isclose(a, b, rel_tol, abs_tol)`:
`|a-b| <= max(rel_tol * max(|a|,|b|), abs_tol)`. -/
def pyIsClose (a b relTol absTol : ℚ) : Bool :=
  decide (|a - b| ≤ max (relTol * max |a| |b|) absTol)

/-- The per-face normal classification of `CalculateSemanticsOperator`:
`isclose(z, -1.0)` (defaults: rel 1e-9, abs 0) → GroundSurface;
`isclose(z, 0, abs_tol=1e-3)` or downward-pointing (excluding the ground
case) → WallSurface; otherwise RoofSurface. -/
def classifySurfaceType (z : ℚ) : String :=
  if pyIsClose z (-1) (1/1000000000) 0 then "GroundSurface"
  else if pyIsClose z 0 (1/1000000000) (1/1000)
      || (decide (z < 0) && !pyIsClose z (-1) (1/1000000000) 0) then
    "WallSurface"
  else "RoofSurface"

/-- The classification rule exactly as the claim states it, with the claimed
±1e-3 tie-break tolerance applied to the dot-product comparisons. -/
def claimedClassify (z : ℚ) : String :=
  if |z + 1| ≤ 1/1000 then "GroundSurface"
  else if |z| ≤ 1/1000 ∨ z < 0 then "WallSurface"
  else "RoofSurface"

/-- The code's classification restated cleanly: the ground comparison uses
the Python-default relative tolerance 1e-9, the zero comparison the absolute
tolerance 1e-3. -/
def specClassify (z : ℚ) : String :=
  if |z + 1| ≤ (1/1000000000) * max |z| 1 then "GroundSurface"
  else if |z| ≤ 1/1000 ∨ z < 0 then "WallSurface"
  else "RoofSurface"

/-- Whether a face's old tag is preserved by the bulk re-classification: it
must resolve into the (original) surface list to a `Window`/`Door` entry. -/
def isPreserved (surfaces : List SemSurf) (t : ℤ) : Bool :=
  decide (0 ≤ t) && decide (t < (surfaces.length : ℤ)) &&
    (let st := (surfaces.getD t.toNat { stype := "" }).stype
     st = "Window" || st = "Door")

/-- First index of a surface of the given type, scanning in order
(`for idx, surf in enumerate(surfaces)`). -/
def lookupSurfIdx : List SemSurf → String → Option ℕ
  | [], _ => none
  | s :: rest, t =>
      if s.stype = t then some 0 else (lookupSurfIdx rest t).map (· + 1)

/-- Reuse the first surface of the computed type, appending a fresh
`{type: surfaceType}` entry when none exists. -/
def lookupOrAppend (surfs : List SemSurf) (t : String) : List SemSurf × ℕ :=
  match lookupSurfIdx surfs t with
  | some idx => (surfs, idx)
  | none => (surfs ++ [{ stype := t }], surfs.length)

/-- The face loop of `CalculateSemanticsOperator.execute`: preserved
(Window/Door) faces keep their old tag verbatim; every other face is
classified from its normal's z-component and tagged with the index of the
first matching surface (appending one when needed). Faces are pairs
`(normal_z, old_tag)`; the preservation test uses the original surfaces. -/
def calcSemanticsAux (orig : List SemSurf) :
    List SemSurf → List (ℚ × ℤ) → List SemSurf × List ℤ
  | surfs, [] => (surfs, [])
  | surfs, face :: rest =>
      if isPreserved orig face.2 then
        let r := calcSemanticsAux orig surfs rest
        (r.1, face.2 :: r.2)
      else
        let p := lookupOrAppend surfs (classifySurfaceType face.1)
        let r := calcSemanticsAux orig p.1 rest
        (r.1, (p.2 : ℤ) :: r.2)

/-- Embedding of `CalculateSemanticsOperator.execute`'s re-classification:
the running surface list starts from the object's stored surfaces. -/
def calcSemantics (surfaces : List SemSurf) (faces : List (ℚ × ℤ)) :
    List SemSurf × List ℤ :=
  calcSemanticsAux surfaces surfaces faces

/-! ## Face-local frame (`get_face_ortho_matrix`) -/

/-- A 3D vector over the reals (exact model of the float vectors used by
`mathutils`). -/
structure Vec3R where
  x : ℝ
  y : ℝ
  z : ℝ

/-- Dot product. -/
def dotR (a b : Vec3R) : ℝ := a.x * b.x + a.y * b.y + a.z * b.z

/-- Cross product. -/
def crossR (a b : Vec3R) : Vec3R :=
  ⟨a.y * b.z - a.z * b.y, a.z * b.x - a.x * b.z, a.x * b.y - a.y * b.x⟩

/-- Scalar multiple. -/
def smulR (c : ℝ) (a : Vec3R) : Vec3R := ⟨c * a.x, c * a.y, c * a.z⟩

/-- Euclidean length. -/
noncomputable def normR (a : Vec3R) : ℝ := Real.sqrt (dotR a a)

/-- `Vector.normalize()`: divide by the length (the zero vector stays zero,
since the inverse of zero is zero). -/
noncomputable def normalizeR (a : Vec3R) : Vec3R := smulR (normR a)⁻¹ a

/-- The world up axis `(0, 0, 1)`. -/
def worldUp : Vec3R := ⟨0, 0, 1⟩

/-- The tangent choice of `get_face_ortho_matrix`: world X for horizontal
faces (`|normal·up| > 0.99`), otherwise the normalized `up × normal`. -/
noncomputable def orthoTangent (nw : Vec3R) : Vec3R :=
  if |dotR nw worldUp| > 99/100 then ⟨1, 0, 0⟩
  else normalizeR (crossR worldUp nw)

/-- A 4×4 real matrix, row by row. -/
structure Mat4R where
  r0 : ℝ × ℝ × ℝ × ℝ
  r1 : ℝ × ℝ × ℝ × ℝ
  r2 : ℝ × ℝ × ℝ × ℝ
  r3 : ℝ × ℝ × ℝ × ℝ

/-- Embedding of `get_face_ortho_matrix`: normalize the world normal,
pick the gravity-aligned tangent, bitangent = normalized `normal × tangent`,
and assemble the column frame `(tangent, bitangent, normal, center)`. -/
noncomputable def getFaceOrthoMatrix (n center : Vec3R) : Mat4R :=
  let nw := normalizeR n
  let t := orthoTangent nw
  let b := normalizeR (crossR nw t)
  ⟨(t.x, b.x, nw.x, center.x),
   (t.y, b.y, nw.y, center.y),
   (t.z, b.z, nw.z, center.z),
   (0, 0, 0, 1)⟩

/-- The tangent column of the frame matrix. -/
def matTangent (m : Mat4R) : Vec3R := ⟨m.r0.1, m.r1.1, m.r2.1⟩

/-- The bitangent column of the frame matrix. -/
def matBitangent (m : Mat4R) : Vec3R := ⟨m.r0.2.1, m.r1.2.1, m.r2.2.1⟩

/-- The normal column of the frame matrix. -/
def matNormal (m : Mat4R) : Vec3R := ⟨m.r0.2.2.1, m.r1.2.2.1, m.r2.2.2.1⟩

/-! ## Global vertex cleanup (`ExportProcess._cleanup_vertices`) -/

/-- An exported integer-scaled vertex `[x, y, z]`. -/
abbrev EV := ℤ × ℤ × ℤ

/-- An arbitrarily nested boundary structure as walked by `_walk_indices` /
`collect`: leaves are vertex indices. -/
inductive BTree where
  | leaf : ℤ → BTree
  | node : List BTree → BTree

mutual

/-- `_walk_indices`: apply a total remapping to every leaf. -/
def mapLeaves (f : ℤ → ℤ) : BTree → BTree
  | .leaf i => .leaf (f i)
  | .node cs => .node (mapLeavesList f cs)

def mapLeavesList (f : ℤ → ℤ) : List BTree → List BTree
  | [] => []
  | t :: ts => mapLeaves f t :: mapLeavesList f ts

end

mutual

/-- All leaves of a boundary tree, in depth-first left-to-right order (the
order in which `collect` visits them). -/
def leavesOf : BTree → List ℤ
  | .leaf i => [i]
  | .node cs => leavesOfList cs

def leavesOfList : List BTree → List ℤ
  | [] => []
  | t :: ts => leavesOf t ++ leavesOfList ts

end

/-- The state the cleanup operates on: the global vertex array and the
boundary trees of all exported geometries. -/
structure ExportState where
  vertices : List EV
  boundaries : List BTree

/-- The dedup scan of `_remove_duplicate_vertices`: thread the `new_vertices`
list; an already seen vertex maps to its first-occurrence index, a new one is
appended and maps to the index it gets. Returns (new vertices, index map). -/
def dedupAux : List EV → List EV → List EV × List ℕ
  | seen, [] => (seen, [])
  | seen, v :: rest =>
      if v ∈ seen then
        ((dedupAux seen rest).1, firstIdx seen v :: (dedupAux seen rest).2)
      else
        ((dedupAux (seen ++ [v]) rest).1,
         seen.length :: (dedupAux (seen ++ [v]) rest).2)

/-- The remap `lambda idx: index_map[idx]` applied to a leaf under
`_walk_indices`' `try/except: pass` — Python list indexing, so negative
in-range indices resolve from the back and an `IndexError` leaves the leaf
unchanged. -/
def dedupRemap (m : List ℕ) (i : ℤ) : ℤ :=
  match pyGet m i with
  | some j => (j : ℤ)
  | none => i

/-- Embedding of `_remove_duplicate_vertices`. -/
def removeDuplicates (s : ExportState) : ExportState × ℕ :=
  if s.vertices.isEmpty then (s, 0)
  else
    let p := dedupAux [] s.vertices
    ({ vertices := p.1,
       boundaries := mapLeavesList (dedupRemap p.2) s.boundaries },
     s.vertices.length - p.1.length)

/-- One step of `collect`: record an in-range index at its first use. -/
def collectStep (n : ℕ) (acc : List ℕ) (i : ℤ) : List ℕ :=
  if 0 ≤ i ∧ i < (n : ℤ) then
    (if i.toNat ∈ acc then acc else acc ++ [i.toNat])
  else acc

/-- The `used`/`ordered` structure of `_remove_orphan_vertices`: all
in-range leaf indices in first-use (depth-first) order. -/
def collectUsed (n : ℕ) (leaves : List ℤ) : List ℕ :=
  leaves.foldl (collectStep n) []

/-- The remap `lambda idx: used[idx]` — a dictionary lookup whose `KeyError`
leaves the leaf unchanged: only collected (hence in-range, non-negative)
indices are rewritten, to their position in first-use order. -/
def orphanRemap (ordered : List ℕ) (i : ℤ) : ℤ :=
  if 0 ≤ i ∧ i.toNat ∈ ordered then (firstIdx ordered i.toNat : ℤ) else i

/-- Embedding of `_remove_orphan_vertices`. -/
def removeOrphans (s : ExportState) : ExportState × ℕ :=
  if s.vertices.isEmpty then (s, 0)
  else
    let ordered := collectUsed s.vertices.length (leavesOfList s.boundaries)
    if ordered.length = s.vertices.length then (s, 0)
    else
      ({ vertices := ordered.map (fun j => s.vertices.getD j (0, 0, 0)),
         boundaries := mapLeavesList (orphanRemap ordered) s.boundaries },
       s.vertices.length - ordered.length)

/-- Embedding of `_cleanup_vertices`: duplicate removal followed by orphan
removal; returns the final state with both removal counts. -/
def cleanupVertices (s : ExportState) : ExportState × ℕ × ℕ :=
  ((removeOrphans (removeDuplicates s).1).1,
   (removeDuplicates s).2,
   (removeOrphans (removeDuplicates s).1).2)

/-- Leaf values that survive a cleaned-up state of `n` vertices: in range,
or out of range on either side (and then untouched by every remap). -/
def LeafOk (n : ℕ) (i : ℤ) : Prop :=
  (0 ≤ i ∧ i < (n : ℤ)) ∨ (n : ℤ) ≤ i ∨ i < -(n : ℤ)

end CJE

namespace CJE

/-- C4: if a `transform` is present its scale/translate are used directly and
vertices pass through unchanged; otherwise (given a geographical extent with at
least six entries whose z-range is well-formed) the synthesized translate is
the extent's minimum corner, the scale is `[1,1,1]`, and the translate is
subtracted from every vertex. -/
theorem import_transform_resolution (d : ImportDoc) :
    (∀ t, d.transform = some t →
      getTransformationParameters d = ⟨t.translate, t.scale, d.vertices⟩)
    ∧ (d.transform = none →
      ∀ b0 b1 b2 b3 b4 b5 rest,
        d.geographicalExtent = some (b0 :: b1 :: b2 :: b3 :: b4 :: b5 :: rest) →
        b2 ≤ b5 →
        (getTransformationParameters d).worldOrigin = [b0, b1, b2]
        ∧ (getTransformationParameters d).scaleParam = [1, 1, 1]
        ∧ (getTransformationParameters d).unScaledVertices =
            d.vertices.map (fun v => (v.1 - b0, v.2.1 - b1, v.2.2 - b2))) := by
  constructor
  · intro t ht
    simp [getTransformationParameters, ht]
  · intro hnone b0 b1 b2 b3 b4 b5 rest hext hz
    have hmin : min b2 b5 = b2 := min_eq_left hz
    refine ⟨?_, ?_, ?_⟩ <;>
      simp [getTransformationParameters, hnone, hext, List.getD, hmin]

/-- Witness for C4 at the spec scenario: a document without `transform` and
extent `[100,200,50,110,210,55]` resolves to translate `[100,200,50]`, scale
`[1,1,1]`, with the translate subtracted from the vertex `(100000,200000,50)`;
and a document with an explicit transform keeps it verbatim. -/
theorem import_transform_resolution_witness :
    ((getTransformationParameters
        ⟨none, some [100, 200, 50, 110, 210, 55], [(100000, 200000, 50)]⟩).worldOrigin
      = [100, 200, 50]
    ∧ (getTransformationParameters
        ⟨none, some [100, 200, 50, 110, 210, 55], [(100000, 200000, 50)]⟩).scaleParam
      = [1, 1, 1]
    ∧ (getTransformationParameters
        ⟨none, some [100, 200, 50, 110, 210, 55], [(100000, 200000, 50)]⟩).unScaledVertices
      = [(99900, 199800, 0)])
    ∧ getTransformationParameters
        ⟨some ⟨[1/1000, 1/1000, 1/1000], [7, 8, 9]⟩, none, [(5, 5, 5)]⟩
      = ⟨[7, 8, 9], [1/1000, 1/1000, 1/1000], [(5, 5, 5)]⟩ := by
  constructor
  · have h := (import_transform_resolution
      ⟨none, some [100, 200, 50, 110, 210, 55], [(100000, 200000, 50)]⟩).2
      rfl 100 200 50 110 210 55 [] rfl (by norm_num)
    refine ⟨h.1, h.2.1, ?_⟩
    rw [h.2.2]
    norm_num
  · exact (import_transform_resolution
      ⟨some ⟨[1/1000, 1/1000, 1/1000], [7, 8, 9]⟩, none, [(5, 5, 5)]⟩).1 _ rfl

/-- C9: a geometry block produced by the mesh exporter carries a `semantics`
key only when the entity's `has_semantics` flag or its `dirty` flag is set;
when both are false no semantics are synthesized, whatever `getSemantics`
would have computed. -/
theorem export_semantics_gating (e : ExpEntityFlags)
    (computeSem : Unit → List (Option ℕ) × List SemSurf)
    (hhs : e.has_semantics = false) (hd : e.dirty = false) :
    exportEntitySemantics e computeSem = none := by
  simp [exportEntitySemantics, createJSONSemantics, hhs, hd]

/-- Witness for C9: an entity with both flags clear yields no semantics key
even when the abstract semantics computation would return data. -/
theorem export_semantics_gating_witness :
    exportEntitySemantics ⟨false, false, "Building"⟩
      (fun _ => ([some 0], [{ stype := "WallSurface" }])) = none :=
  export_semantics_gating ⟨false, false, "Building"⟩ _ rfl rfl

/-- Parsed-document level of the changed-only early exit: with a stored
(non-empty) baseline, if no gathered object is dirty and every object's
source id appears in the baseline's `CityObjects`, the export skips
regeneration entirely (the result does not depend on the full pipeline) and
its written document is the baseline document. -/
theorem export_changed_only_writes_baseline (b : JDoc) (objs : List SceneObj)
    (full : JDoc) (hb : b.isEmpty = false)
    (hclean : ∀ o ∈ objs, o.dirty = false ∧ o.source_id ∈ docCityObjectIds b) :
    exportExecute true (some b) objs full = b := by
  have hfilter :
      objs.filter
        (fun o => o.dirty || !((docCityObjectIds b).contains o.source_id)) = [] := by
    rw [List.filter_eq_nil_iff]
    intro o ho
    obtain ⟨hd, hm⟩ := hclean o ho
    have hc : (docCityObjectIds b).contains o.source_id = true :=
      List.elem_eq_true_of_mem hm
    simp [hd, hc]
    exact hm
  have hdirty : changedOnlyDirtyIds b objs = [] := by
    unfold changedOnlyDirtyIds
    rw [hfilter]
    rfl
  simp only [exportExecute]
  rw [if_pos ⟨by trivial, hb, hdirty⟩]

/-- Counterexample for C1: a clean one-building scene whose baseline file is
in compact form except for a single trailing newline. The changed-only early
exit fires (the output below is the dump of the parsed baseline, not of the
empty full-pipeline document), yet the bytes written are the baseline with
the newline canonicalized away — not byte-identical to the original file,
refuting the claim's conclusion. -/
theorem export_roundtrip_bytes_counterexample :
    exportExecuteBytes true (some (storedBaseline roundtripFileText))
        [⟨"b1", false⟩] []
      = "\x7b\"type\": \"CityJSON\", \"version\": \"2.0\", \"CityObjects\": \x7b\"b1\": \x7b\"type\": \"Building\"\x7d\x7d, \"vertices\": []\x7d"
    ∧ "\x7b\"type\": \"CityJSON\", \"version\": \"2.0\", \"CityObjects\": \x7b\"b1\": \x7b\"type\": \"Building\"\x7d\x7d, \"vertices\": []\x7d"
      ≠ storedBaseline roundtripFileText :=
  ⟨by decide, by decide⟩

/-- C1 (amended): in changed-only mode, when the stored baseline text parses
to a (non-empty) document, no gathered object is dirty, and every object's
source id appears in the baseline's `CityObjects`, the export skips
regeneration and writes `json.dumps` of the parsed baseline — the baseline
re-serialized in canonical compact form, independent of the full pipeline.
The output is byte-identical to the original file exactly when that file was
already in canonical `json.dumps` form. -/
theorem export_changed_only_writes_canonical_baseline
    (fileText : String) (b : JDoc) (objs : List SceneObj) (full : JDoc)
    (hparse : loadBaselineDoc (some (storedBaseline fileText)) = some b)
    (hb : b.isEmpty = false)
    (hclean : ∀ o ∈ objs, o.dirty = false ∧ o.source_id ∈ docCityObjectIds b) :
    exportExecuteBytes true (some (storedBaseline fileText)) objs full
        = jdump (Json.jobj b)
    ∧ (fileText = jdump (Json.jobj b) →
        exportExecuteBytes true (some (storedBaseline fileText)) objs full
          = fileText) := by
  have h1 : exportExecuteBytes true (some (storedBaseline fileText)) objs full
      = jdump (Json.jobj b) := by
    unfold exportExecuteBytes
    rw [hparse, export_changed_only_writes_baseline b objs full hb hclean]
  exact ⟨h1, fun h => h1.trans h.symm⟩

/-- Witness for C1 (amended): a clean one-building scene whose baseline file
is already canonical; the changed-only export writes the file's bytes back
unchanged. -/
theorem export_changed_only_writes_canonical_baseline_witness :
    exportExecuteBytes true (some (storedBaseline canonicalFileText))
        [⟨"b1", false⟩] []
      = canonicalFileText :=
  (export_changed_only_writes_canonical_baseline canonicalFileText
      [("type", Json.js "CityJSON"),
       ("CityObjects", Json.jobj [("b1", Json.jobj [("type", Json.js "Building")])])]
      [⟨"b1", false⟩] [] rfl (by decide) (by decide)).2 (by decide)

theorem claimPatchKeys_subset_patchKeys :
    ∀ k ∈ claimPatchKeys, k ∈ patchKeys := by
  intro k hk
  simp only [claimPatchKeys, List.mem_cons, List.not_mem_nil, or_false] at hk
  rcases hk with rfl | rfl | rfl | rfl | rfl | rfl | rfl <;> simp [patchKeys]

/-- C10: with patch mode on and a parseable baseline, the merged output takes,
for every key freshly computed by the pipeline (all of which lie among
`CityObjects, vertices, appearance, transform, metadata, version, type`), the
fresh value, and for every other key — in particular every unknown/extension
key of the baseline — the baseline's unchanged value. -/
theorem export_patch_merges_fresh_keys (b freshDoc : JDoc) (k : String)
    (hkeys : ∀ p ∈ freshDoc, p.1 ∈ claimPatchKeys) :
    (∀ v, jlookup freshDoc k = some v →
        jlookup (applyBaselinePatch true (some b) freshDoc) k = some v)
    ∧ (jlookup freshDoc k = none →
        jlookup (applyBaselinePatch true (some b) freshDoc) k = jlookup b k) := by
  have hpatch :
      applyBaselinePatch true (some b) freshDoc
        = patchKeys.foldl
            (fun acc q =>
              match jlookup freshDoc q with
              | some v => setKey acc q v
              | none => acc) b := rfl
  constructor
  · intro v hv
    rw [hpatch, jlookup_patch_foldl]
    have hmem := jlookup_isSome_key_mem freshDoc k v hv
    obtain ⟨p, hp, hpk⟩ := List.mem_map.mp hmem
    have hk : k ∈ patchKeys :=
      claimPatchKeys_subset_patchKeys k (hpk ▸ hkeys p hp)
    simp [hk, hv]
  · intro hv
    rw [hpatch, jlookup_patch_foldl]
    simp [hv]

/-- Witness for C10: patching a baseline holding an unknown key
`"x-extension"` with a fresh export containing `type` and `vertices` keeps the
extension value verbatim and takes the fresh `vertices`. -/
theorem export_patch_merges_fresh_keys_witness :
    jlookup
        (applyBaselinePatch true
          (some [("type", Json.js "old"), ("x-extension", Json.jn 42)])
          [("type", Json.js "CityJSON"), ("vertices", Json.jarr [])])
        "x-extension"
      = some (Json.jn 42)
    ∧ jlookup
        (applyBaselinePatch true
          (some [("type", Json.js "old"), ("x-extension", Json.jn 42)])
          [("type", Json.js "CityJSON"), ("vertices", Json.jarr [])])
        "vertices"
      = some (Json.jarr []) := by
  have hkeys :
      ∀ p ∈ [("type", Json.js "CityJSON"), ("vertices", Json.jarr [])],
        p.1 ∈ claimPatchKeys := by
    intro p hp
    simp only [List.mem_cons, List.not_mem_nil, or_false] at hp
    rcases hp with rfl | rfl <;> simp [claimPatchKeys]
  constructor
  · have h := (export_patch_merges_fresh_keys
      [("type", Json.js "old"), ("x-extension", Json.jn 42)]
      [("type", Json.js "CityJSON"), ("vertices", Json.jarr [])]
      "x-extension" hkeys).2 rfl
    rw [h]
    rfl
  · exact (export_patch_merges_fresh_keys
      [("type", Json.js "old"), ("x-extension", Json.jn 42)]
      [("type", Json.js "CityJSON"), ("vertices", Json.jarr [])]
      "vertices" hkeys).1 _ rfl

theorem semanticReject_fst_false (o : VObj) (i : ℤ) (r : Bool × String)
    (h : semanticReject o i = some r) : r.1 = false := by
  unfold semanticReject at h
  cases hts : o.tags with
  | none =>
      rw [hts] at h
      simp at h
  | some ts =>
      rw [hts] at h
      simp only at h
      split_ifs at h <;>
        (have hr := Option.some.inj h; subst hr; rfl)

/-- C3: a placement attempt on a face whose semantic tag resolves to a
`Window`/`Door` surface, or on a face smaller than the 0.1 m² minimum, is
rejected by `validate_wall_face`, the operator cancels with an error, and the
object state (mesh, tags, surfaces) is returned unchanged. -/
theorem placement_validation_rejects (o : VObj) (i : ℤ)
    (h :
      (∃ areas ts, o.faceAreas = some areas ∧ o.tags = some ts ∧
        0 ≤ i ∧ i < (areas.length : ℤ) ∧ i < (ts.length : ℤ) ∧ o.surfaces ≠ [] ∧
        0 ≤ ts.getD i.toNat 0 ∧ ts.getD i.toNat 0 < (o.surfaces.length : ℤ) ∧
        ((o.surfaces.getD (ts.getD i.toNat 0).toNat { stype := "" }).stype = "Window"
          ∨ (o.surfaces.getD (ts.getD i.toNat 0).toNat { stype := "" }).stype = "Door"))
      ∨ (∃ areas, o.faceAreas = some areas ∧ 0 ≤ i ∧ i < (areas.length : ℤ) ∧
          areas.getD i.toNat 0 < 1 / 10)) :
    (validateWallFace o i).1 = false
    ∧ (∃ msg, (placeWindowInvoke o i).1 = Except.error msg)
    ∧ (placeWindowInvoke o i).2 = o := by
  have hmain : (validateWallFace o i).1 = false := by
    rcases h with ⟨areas, ts, hA, hT, h0, hiA, hiT, hS, ht0, htS, hWD⟩ |
      ⟨areas, hA, h0, hiA, harea⟩
    · have h1 : ¬(i < 0 ∨ (areas.length : ℤ) ≤ i) := by omega
      have hsem : semanticReject o i
          = some (false,
              "Cannot add window to "
                ++ (o.surfaces.getD (ts.getD i.toNat 0).toNat { stype := "" }).stype
                ++ ". Select a WallSurface.") := by
        unfold semanticReject
        rw [hT]
        simp only
        rw [if_pos ⟨hS, hiT⟩, if_pos ⟨ht0, htS⟩, if_pos hWD]
      by_cases hB : o.objType = "Building" ∨ o.objType = "BuildingPart"
      · simp [validateWallFace, hA, hB, h1, hsem]
      · simp [validateWallFace, hB]
    · have h1 : ¬(i < 0 ∨ (areas.length : ℤ) ≤ i) := by omega
      by_cases hB : o.objType = "Building" ∨ o.objType = "BuildingPart"
      · cases hsem : semanticReject o i with
        | some r =>
            have hr := semanticReject_fst_false o i r hsem
            simp [validateWallFace, hA, hB, h1, hsem, hr]
        | none =>
            have harea' : areas[i.toNat]?.getD 0 < (10 : ℚ)⁻¹ := by
              simpa using harea
            simp [validateWallFace, hA, hB, h1, hsem, harea']
      · simp [validateWallFace, hB]
  refine ⟨hmain, ⟨(validateWallFace o i).2, ?_⟩, ?_⟩ <;>
    simp [placeWindowInvoke, hmain]

/-- Witness for C3: a Building whose single face is tagged with a `Window`
surface and is also below the area minimum is rejected and left unchanged. -/
theorem placement_validation_rejects_witness :
    (validateWallFace ⟨"Building", some [1/20], some [0], [{ stype := "Window" }]⟩ 0).1
      = false
    ∧ (∃ msg,
        (placeWindowInvoke
          ⟨"Building", some [1/20], some [0], [{ stype := "Window" }]⟩ 0).1
          = Except.error msg)
    ∧ (placeWindowInvoke
        ⟨"Building", some [1/20], some [0], [{ stype := "Window" }]⟩ 0).2
        = ⟨"Building", some [1/20], some [0], [{ stype := "Window" }]⟩ :=
  placement_validation_rejects
    ⟨"Building", some [1/20], some [0], [{ stype := "Window" }]⟩ 0
    (Or.inl ⟨[1/20], [0], rfl, rfl, by norm_num, by norm_num, by norm_num,
      by simp, by norm_num, by norm_num, by simp⟩)

/-- C2 (code evaluation at the failing input): committing a valid window
placement on a wall face tagged with parent surface index 0 — the parent
having no pre-existing `children` list — appends the quad face, the `Window`
surface with `parent = 0`, tags the new face, sets `dirty` and `LOD = 3.0`,
but the parent surface ends up with **no** `children` entry: the index of the
new surface is lost, contradicting the claimed `surfaces[p].children`
linkage. -/
theorem window_commit_drops_children_link :
    windowCommit (1/10) ⟨(1,0,0,0), (0,1,0,0), (0,0,1,0), (0,0,0,1)⟩
        (0, 0, 0) (6/5, 3/2, 0) 0
        ⟨[(0,0,0), (1,0,0), (1,1,0), (0,1,0)], [[0,1,2,3]], some [0],
         [{ stype := "WallSurface" }], false, 2⟩
      = some
          { verts := [(0,0,0), (1,0,0), (1,1,0), (0,1,0),
                      (0,0,0), (6/5,0,0), (6/5,3/2,0), (0,3/2,0)],
            faces := [[0,1,2,3], [4,5,6,7]],
            tags := some [0, 1],
            surfaces := [{ stype := "WallSurface" },
              { stype := "Window", sid := some "Window_gen",
                sname := some "Window_2", parent := some 0 }],
            dirty := true, lod := 3 }
    ∧ (windowCommit (1/10) ⟨(1,0,0,0), (0,1,0,0), (0,0,1,0), (0,0,0,1)⟩
        (0, 0, 0) (6/5, 3/2, 0) 0
        ⟨[(0,0,0), (1,0,0), (1,1,0), (0,1,0)], [[0,1,2,3]], some [0],
         [{ stype := "WallSurface" }], false, 2⟩).map
        (fun e => (e.surfaces.getD 0 { stype := "" }).children)
      = some none := by
  have hcommit :
      windowCommit (1/10) ⟨(1,0,0,0), (0,1,0,0), (0,0,1,0), (0,0,0,1)⟩
          (0, 0, 0) (6/5, 3/2, 0) 0
          ⟨[(0,0,0), (1,0,0), (1,1,0), (0,1,0)], [[0,1,2,3]], some [0],
           [{ stype := "WallSurface" }], false, 2⟩
        = some
            { verts := [(0,0,0), (1,0,0), (1,1,0), (0,1,0),
                        (0,0,0), (6/5,0,0), (6/5,3/2,0), (0,3/2,0)],
              faces := [[0,1,2,3], [4,5,6,7]],
              tags := some [0, 1],
              surfaces := [{ stype := "WallSurface" },
                { stype := "Window", sid := some "Window_gen",
                  sname := some "Window_2", parent := some 0 }],
              dirty := true, lod := 3 } := by
    norm_num [windowCommit, mat4ApplyQ, abs_of_nonneg]
    decide
  refine ⟨hcommit, ?_⟩
  rw [hcommit]
  rfl

theorem firstIdx_lt {α : Type} [DecidableEq α] (mv : List α) (c : α) (h : c ∈ mv) :
    firstIdx mv c < mv.length := by
  induction mv with
  | nil => simp at h
  | cons v rest ih =>
      unfold firstIdx
      by_cases hv : v = c
      · simp [hv]
      · have hr : c ∈ rest := by
          rcases List.mem_cons.mp h with h1 | h1
          · exact absurd h1.symm hv
          · exact h1
        simp only [if_neg hv, List.length_cons]
        exact Nat.succ_lt_succ (ih hr)

theorem firstIdx_getElem {α : Type} [DecidableEq α] (mv : List α) (c : α)
    (h : c ∈ mv) : mv[firstIdx mv c]? = some c := by
  induction mv with
  | nil => simp at h
  | cons v rest ih =>
      unfold firstIdx
      by_cases hv : v = c
      · simp [hv]
      · have hr : c ∈ rest := by
          rcases List.mem_cons.mp h with h1 | h1
          · exact absurd h1.symm hv
          · exact h1
        simp only [if_neg hv, List.getElem?_cons_succ]
        exact ih hr

theorem addCoord_extends (mv : List V3) (c : V3) : mv <+: (addCoord mv c).1 := by
  unfold addCoord
  by_cases h : c ∈ mv
  · simp [h]
  · simp only [if_neg h]
    exact ⟨[c], rfl⟩

theorem addCoord_lt (mv : List V3) (c : V3) :
    (addCoord mv c).2 < (addCoord mv c).1.length := by
  unfold addCoord
  by_cases h : c ∈ mv
  · simpa [h] using firstIdx_lt mv c h
  · simp [h]

theorem addCoord_getElem (mv : List V3) (c : V3) :
    ((addCoord mv c).1)[(addCoord mv c).2]? = some c := by
  unfold addCoord
  by_cases h : c ∈ mv
  · simpa [h] using firstIdx_getElem mv c h
  · simp [h]

theorem addCoord_nodup (mv : List V3) (c : V3) (hn : mv.Nodup) :
    (addCoord mv c).1.Nodup := by
  unfold addCoord
  by_cases h : c ∈ mv
  · simpa [h] using hn
  · simp only [if_neg h]
    simp [List.nodup_append, hn, h]

theorem prefix_getElem?_eq {α : Type} (l₁ l₂ : List α) (i : ℕ)
    (h : l₁ <+: l₂) (hi : i < l₁.length) : l₂[i]? = l₁[i]? := by
  obtain ⟨t, rfl⟩ := h
  exact List.getElem?_append_left hi

theorem buildFace_spec (vs : List V3) (f : List ℤ) :
    ∀ mv mvf js, buildFace vs mv f = some (mvf, js) →
      mv <+: mvf
      ∧ (mv.Nodup → mvf.Nodup)
      ∧ js.length = f.length
      ∧ (∀ j, j < js.length →
          js.getD j 0 < mvf.length
          ∧ mvf[js.getD j 0]? = pyGet vs (f.getD j 0)) := by
  induction f with
  | nil =>
      intro mv mvf js h
      simp only [buildFace, Option.some.injEq, Prod.mk.injEq] at h
      obtain ⟨rfl, rfl⟩ := h
      exact ⟨List.prefix_refl _, fun hn => hn, rfl, by simp⟩
  | cons i rest ih =>
      intro mv mvf js h
      unfold buildFace at h
      cases hc : pyGet vs i with
      | none =>
          rw [hc] at h
          simp at h
      | some c =>
          rw [hc] at h
          dsimp only at h
          cases hb : buildFace vs (addCoord mv c).1 rest with
          | none =>
              rw [hb] at h
              simp at h
          | some p =>
              obtain ⟨mv₂, js₂⟩ := p
              rw [hb] at h
              dsimp only at h
              simp only [Option.some.injEq, Prod.mk.injEq] at h
              obtain ⟨rfl, rfl⟩ := h
              obtain ⟨hpre, hnd, hlen, hidx⟩ := ih (addCoord mv c).1 mv₂ js₂ hb
              refine ⟨(addCoord_extends mv c).trans hpre,
                fun hn => hnd (addCoord_nodup mv c hn), by simpa using hlen, ?_⟩
              intro j hj
              cases j with
              | zero =>
                  have hlt : (addCoord mv c).2 < mv₂.length :=
                    lt_of_lt_of_le (addCoord_lt mv c) hpre.length_le
                  refine ⟨by simpa using hlt, ?_⟩
                  have := prefix_getElem?_eq (addCoord mv c).1 mv₂
                    (addCoord mv c).2 hpre (addCoord_lt mv c)
                  simp only [List.getD]
                  simpa [this, hc] using (addCoord_getElem mv c)
              | succ j =>
                  have hj' : j < js₂.length := by simpa using hj
                  have := hidx j hj'
                  simpa using this

theorem buildFaces_spec (vs : List V3) (fs : List (List ℤ)) :
    ∀ mv mvf nfs, buildFaces vs mv fs = some (mvf, nfs) →
      mv <+: mvf
      ∧ (mv.Nodup → mvf.Nodup)
      ∧ nfs.length = fs.length
      ∧ (∀ i, i < fs.length →
          (nfs.getD i []).length = (fs.getD i []).length
          ∧ ∀ j, j < (nfs.getD i []).length →
              mvf[(nfs.getD i []).getD j 0]? = pyGet vs ((fs.getD i []).getD j 0)) := by
  induction fs with
  | nil =>
      intro mv mvf nfs h
      simp only [buildFaces, Option.some.injEq, Prod.mk.injEq] at h
      obtain ⟨rfl, rfl⟩ := h
      exact ⟨List.prefix_refl _, fun hn => hn, rfl, by simp⟩
  | cons f fs ih =>
      intro mv mvf nfs h
      unfold buildFaces at h
      cases hb : buildFace vs mv f with
      | none =>
          rw [hb] at h
          simp at h
      | some p =>
          obtain ⟨mv₁, nf⟩ := p
          rw [hb] at h
          dsimp only at h
          cases hbs : buildFaces vs mv₁ fs with
          | none =>
              rw [hbs] at h
              simp at h
          | some q =>
              obtain ⟨mv₂, nfs₂⟩ := q
              rw [hbs] at h
              dsimp only at h
              simp only [Option.some.injEq, Prod.mk.injEq] at h
              obtain ⟨rfl, rfl⟩ := h
              obtain ⟨hpre₁, hnd₁, hlen₁, hidx₁⟩ := buildFace_spec vs f mv mv₁ nf hb
              obtain ⟨hpre₂, hnd₂, hlen₂, hidx₂⟩ := ih mv₁ mv₂ nfs₂ hbs
              refine ⟨hpre₁.trans hpre₂, fun hn => hnd₂ (hnd₁ hn),
                by simpa using hlen₂, ?_⟩
              intro i hi
              cases i with
              | zero =>
                  refine ⟨by simpa using hlen₁, ?_⟩
                  intro j hj
                  have hj' : j < nf.length := by simpa using hj
                  obtain ⟨hlt, hval⟩ := hidx₁ j hj'
                  have hstable := prefix_getElem?_eq mv₁ mv₂ (nf.getD j 0) hpre₂ hlt
                  simp only [List.getD_cons_zero]
                  rw [hstable]
                  exact hval
              | succ i =>
                  have hi' : i < fs.length := by simpa using hi
                  have := hidx₂ i hi'
                  simpa using this

/-- The claim's per-face counting for the Mesh Builder, as stated: one mesh
face for EVERY face of every shell (resp. every listed face). A `Solid` with
one shell containing one face whose outer ring is empty refutes it: the
builder skips that face, so the extraction is shorter than the face count. -/
theorem mesh_builder_per_face_counterexample :
    (extractVertexMapping (.solid [[CJFace.rings [[]]]])).length
      ≠ boundariesFaceCount (.solid [[CJFace.rings [[]]]]) := by
  decide

/-- C5 (amended): the Mesh Builder emits, in order, one mesh face per face
with a non-empty outer ring (for `Solid` across all shells, for
`MultiSurface` across the listed faces), each being exactly that outer ring;
empty faces and faces with empty outer rings are skipped. On any successful
build the local position list is duplicate-free and each face's local
indices resolve to exactly the vertex-pool coordinates of its outer ring;
empty boundaries yield an empty mesh rather than an error. -/
theorem mesh_builder_properties (shells : List (List CJFace))
    (faces : List CJFace) (vs : List V3) (rings : List (List ℤ)) :
    extractVertexMapping (.solid shells)
      = (shells.flatten.filter (fun f => outerOf f ≠ [])).map outerOf
    ∧ extractVertexMapping (.multi faces)
      = (faces.filter (fun f => outerOf f ≠ [])).map outerOf
    ∧ (∀ mv nf, createBlenderMesh vs rings = some (mv, nf) →
        mv.Nodup
        ∧ nf.length = rings.length
        ∧ ∀ i, i < rings.length →
            (nf.getD i []).length = (rings.getD i []).length
            ∧ ∀ j, j < (nf.getD i []).length →
                mv[(nf.getD i []).getD j 0]? = pyGet vs ((rings.getD i []).getD j 0))
    ∧ extractVertexMapping (.solid []) = []
    ∧ extractVertexMapping (.multi []) = []
    ∧ createBlenderMesh vs [] = some ([], []) := by
  refine ⟨?_, ?_, ?_, rfl, rfl, rfl⟩
  · show (shells.map (fun shell => (shell.map outerOf).filter (· ≠ []))).flatten
        = (shells.flatten.filter (fun f => outerOf f ≠ [])).map outerOf
    induction shells with
    | nil => rfl
    | cons s ss ihs =>
        simp only [List.map_cons, List.flatten_cons, List.filter_append,
          List.map_append, ihs]
        congr 1
        rw [List.filter_map]
        rfl
  · show (faces.map outerOf).filter (· ≠ [])
        = (faces.filter (fun f => outerOf f ≠ [])).map outerOf
    rw [List.filter_map]
    rfl
  · intro mv nf h
    obtain ⟨_, hnd, hlen, hidx⟩ := buildFaces_spec vs rings [] mv nf h
    exact ⟨hnd List.nodup_nil, hlen, hidx⟩

/-- Witness for C5: a two-face build over a three-vertex pool (the second
face revisits the same coordinates) succeeds with a duplicate-free local
list, matching lengths, and correctly resolved indices. -/
theorem lookupSurfIdx_spec (t : String) :
    ∀ (surfs : List SemSurf) (idx : ℕ), lookupSurfIdx surfs t = some idx →
      idx < surfs.length ∧ (surfs.getD idx { stype := "" }).stype = t := by
  intro surfs
  induction surfs with
  | nil =>
      intro idx h
      simp [lookupSurfIdx] at h
  | cons s rest ih =>
      intro idx h
      unfold lookupSurfIdx at h
      by_cases hs : s.stype = t
      · rw [if_pos hs] at h
        have : idx = 0 := (Option.some.inj h).symm
        subst this
        simpa using hs
      · rw [if_neg hs] at h
        cases hr : lookupSurfIdx rest t with
        | none =>
            rw [hr] at h
            simp at h
        | some j =>
            rw [hr] at h
            simp only [Option.map_some', Option.some.injEq] at h
            subst h
            obtain ⟨hlt, hty⟩ := ih j hr
            exact ⟨by simpa using Nat.succ_lt_succ hlt, by simpa using hty⟩

theorem lookupOrAppend_spec (surfs : List SemSurf) (t : String) :
    surfs <+: (lookupOrAppend surfs t).1
    ∧ (lookupOrAppend surfs t).2 < (lookupOrAppend surfs t).1.length
    ∧ ((lookupOrAppend surfs t).1.getD (lookupOrAppend surfs t).2
        { stype := "" }).stype = t := by
  unfold lookupOrAppend
  cases hr : lookupSurfIdx surfs t with
  | some idx =>
      obtain ⟨hlt, hty⟩ := lookupSurfIdx_spec t surfs idx hr
      exact ⟨List.prefix_refl _, hlt, hty⟩
  | none =>
      refine ⟨⟨[{ stype := t }], rfl⟩, by simp, ?_⟩
      rw [List.getD_eq_getElem?_getD, List.getElem?_append_right (le_refl _)]
      simp

theorem prefix_getD_eq {α : Type} (l₁ l₂ : List α) (k : ℕ) (d : α)
    (h : l₁ <+: l₂) (hk : k < l₁.length) : l₂.getD k d = l₁.getD k d := by
  rw [List.getD_eq_getElem?_getD, List.getD_eq_getElem?_getD,
    prefix_getElem?_eq l₁ l₂ k h hk]

theorem calcSemanticsAux_spec (orig : List SemSurf) (faces : List (ℚ × ℤ)) :
    ∀ surfs : List SemSurf,
      surfs <+: (calcSemanticsAux orig surfs faces).1
      ∧ (calcSemanticsAux orig surfs faces).2.length = faces.length
      ∧ ∀ i, i < faces.length →
          (isPreserved orig (faces.getD i (0, 0)).2 = true →
              (calcSemanticsAux orig surfs faces).2.getD i 0
                = (faces.getD i (0, 0)).2)
          ∧ (isPreserved orig (faces.getD i (0, 0)).2 = false →
              ∃ k : ℕ,
                (calcSemanticsAux orig surfs faces).2.getD i 0 = (k : ℤ)
                ∧ k < (calcSemanticsAux orig surfs faces).1.length
                ∧ ((calcSemanticsAux orig surfs faces).1.getD k
                    { stype := "" }).stype
                    = classifySurfaceType (faces.getD i (0, 0)).1) := by
  induction faces with
  | nil =>
      intro surfs
      refine ⟨List.prefix_refl _, rfl, ?_⟩
      intro i hi
      simp at hi
  | cons face rest ih =>
      intro surfs
      cases hb : isPreserved orig face.2 with
      | true =>
          have hstep : calcSemanticsAux orig surfs (face :: rest)
              = ((calcSemanticsAux orig surfs rest).1,
                 face.2 :: (calcSemanticsAux orig surfs rest).2) := by
            simp only [calcSemanticsAux]
            rw [if_pos hb]
          obtain ⟨hpre, hlen, hidx⟩ := ih surfs
          rw [hstep]
          refine ⟨hpre, by simp [hlen], ?_⟩
          intro i hi
          cases i with
          | zero =>
              constructor
              · intro _
                simp
              · intro hf
                simp only [List.getD_cons_zero] at hf
                exact absurd hb (by simp [hf])
          | succ i =>
              have hi' : i < rest.length := by simpa using hi
              obtain ⟨h1, h2⟩ := hidx i hi'
              exact ⟨by simpa using h1, by simpa using h2⟩
      | false =>
          have hstep : calcSemanticsAux orig surfs (face :: rest)
              = ((calcSemanticsAux orig
                    (lookupOrAppend surfs (classifySurfaceType face.1)).1 rest).1,
                 ((lookupOrAppend surfs (classifySurfaceType face.1)).2 : ℤ) ::
                 (calcSemanticsAux orig
                    (lookupOrAppend surfs (classifySurfaceType face.1)).1 rest).2) := by
            simp only [calcSemanticsAux]
            rw [if_neg (by simp [hb])]
          obtain ⟨hpre, hlen, hidx⟩ :=
            ih (lookupOrAppend surfs (classifySurfaceType face.1)).1
          obtain ⟨hpre0, hklt, hkty⟩ :=
            lookupOrAppend_spec surfs (classifySurfaceType face.1)
          rw [hstep]
          refine ⟨hpre0.trans hpre, by simp [hlen], ?_⟩
          intro i hi
          cases i with
          | zero =>
              constructor
              · intro hf
                simp only [List.getD_cons_zero] at hf
                exact absurd hf (by simp [hb])
              · intro _
                refine ⟨(lookupOrAppend surfs (classifySurfaceType face.1)).2,
                  by simp, lt_of_lt_of_le hklt hpre.length_le, ?_⟩
                rw [prefix_getD_eq _ _ _ _ hpre hklt]
                simpa using hkty
          | succ i =>
              have hi' : i < rest.length := by simpa using hi
              obtain ⟨h1, h2⟩ := hidx i hi'
              exact ⟨by simpa using h1, by simpa using h2⟩

theorem max_rel_abs_le {z : ℚ} (h : |z| ≤ max ((1/1000000000) * |z|) (1/1000)) :
    |z| ≤ 1/1000 := by
  rcases max_cases ((1/1000000000 : ℚ) * |z|) (1/1000) with ⟨heq, hge⟩ | ⟨heq, hge⟩ <;>
    rw [heq] at h
  · nlinarith [abs_nonneg z]
  · exact h

theorem classifySurfaceType_eq_spec (z : ℚ) :
    classifySurfaceType z = specClassify z := by
  have habs1 : |z - -1| = |z + 1| := by ring_nf
  have habsneg : |(-1 : ℚ)| = 1 := by norm_num
  have habs0 : |z - 0| = |z| := by ring_nf
  have hmax0 : max |z| |(0 : ℚ)| = |z| := by
    simp [abs_nonneg]
  have hrelnn : (0 : ℚ) ≤ (1/1000000000) * max |z| |(-1 : ℚ)| := by positivity
  have hground : pyIsClose z (-1) (1/1000000000) 0 = true
      ↔ |z + 1| ≤ (1/1000000000) * max |z| 1 := by
    unfold pyIsClose
    rw [decide_eq_true_eq, habs1, max_eq_left hrelnn, habsneg]
  have hzero : pyIsClose z 0 (1/1000000000) (1/1000) = true ↔ |z| ≤ 1/1000 := by
    unfold pyIsClose
    rw [decide_eq_true_eq, habs0, hmax0]
    constructor
    · exact max_rel_abs_le
    · intro h
      exact le_max_of_le_right h
  unfold classifySurfaceType specClassify
  by_cases hg : |z + 1| ≤ (1/1000000000) * max |z| 1
  · rw [if_pos (hground.mpr hg), if_pos hg]
  · have hgb : pyIsClose z (-1) (1/1000000000) 0 = false := by
      rw [← Bool.not_eq_true, hground]
      exact hg
    rw [if_neg (by rw [hgb]; simp), if_neg hg]
    by_cases hw : |z| ≤ 1/1000 ∨ z < 0
    · rw [if_pos hw]
      have : (pyIsClose z 0 (1/1000000000) (1/1000)
          || (decide (z < 0) && !pyIsClose z (-1) (1/1000000000) 0)) = true := by
        rw [Bool.or_eq_true_iff]
        rcases hw with hw | hw
        · exact Or.inl (hzero.mpr hw)
        · refine Or.inr ?_
          rw [Bool.and_eq_true_iff]
          exact ⟨decide_eq_true hw, by rw [hgb]; rfl⟩
      rw [if_pos this]
    · rw [if_neg hw]
      push_neg at hw
      have hcond : ¬((pyIsClose z 0 (1/1000000000) (1/1000)
          || (decide (z < 0) && !pyIsClose z (-1) (1/1000000000) 0)) = true) := by
        intro hc
        rcases Bool.or_eq_true_iff.mp hc with hc1 | hc2
        · exact absurd (hzero.mp hc1) (not_le.mpr hw.1)
        · exact absurd (of_decide_eq_true (Bool.and_eq_true_iff.mp hc2).1)
            (not_lt.mpr hw.2)
      rw [if_neg hcond]

theorem mesh_builder_properties_witness :
    createBlenderMesh [(0,0,0), (1,0,0), (0,1,0)] [[0,1,2], [2,1,0]]
      = some ([(0,0,0), (1,0,0), (0,1,0)], [[0,1,2], [2,1,0]])
    ∧ ([(0,0,0), (1,0,0), (0,1,0)] : List V3).Nodup
    ∧ ([[0,1,2], [2,1,0]] : List (List ℕ)).length
        = ([[0,1,2], [2,1,0]] : List (List ℤ)).length
    ∧ ∀ i, i < ([[0,1,2], [2,1,0]] : List (List ℤ)).length →
        (([[0,1,2], [2,1,0]] : List (List ℕ)).getD i []).length
          = (([[0,1,2], [2,1,0]] : List (List ℤ)).getD i []).length := by
  have hbuild :
      createBlenderMesh [(0,0,0), (1,0,0), (0,1,0)] [[0,1,2], [2,1,0]]
        = some ([(0,0,0), (1,0,0), (0,1,0)], [[0,1,2], [2,1,0]]) := by decide
  have h := (mesh_builder_properties [] [] [(0,0,0), (1,0,0), (0,1,0)]
    [[0,1,2], [2,1,0]]).2.2.1 _ _ hbuild
  exact ⟨hbuild, h.1, h.2.1, fun i hi => (h.2.2 i hi).1⟩

/-- The claim's classification with a ±1e-3 ground tolerance disagrees with
the code at normal-z = −0.9995: `math.isclose(z, -1.0)` (relative tolerance
1e-9) is false there, so the operator assigns `WallSurface`, while the claim's
rule (|z+1| ≤ 1e-3) demands `GroundSurface`. -/
theorem calc_semantics_ground_tolerance_counterexample :
    ((calcSemantics [] [(-1999/2000, 0)]).1.getD 0 { stype := "" }).stype
      = "WallSurface"
    ∧ claimedClassify (-1999/2000) = "GroundSurface"
    ∧ ("WallSurface" : String) ≠ "GroundSurface" := by
  have habs1 : |(-1999/2000 : ℚ) - (-1)| = 1/2000 := by
    rw [show ((-1999/2000 : ℚ) - (-1)) = 1/2000 by norm_num]
    exact abs_of_nonneg (by norm_num)
  have habsz : |(-1999/2000 : ℚ)| = 1999/2000 := by
    rw [abs_of_nonpos (by norm_num)]
    norm_num
  have hg : pyIsClose (-1999/2000) (-1) (1/1000000000) 0 = false := by
    unfold pyIsClose
    rw [decide_eq_false_iff_not]
    intro hcon
    rw [habs1, habsz, show |(-1 : ℚ)| = 1 by norm_num,
      show max (1999/2000 : ℚ) 1 = 1 from max_eq_right (by norm_num),
      show max ((1/1000000000 : ℚ) * 1) 0 = 1/1000000000 by
        rw [max_eq_left (by norm_num)]
        norm_num] at hcon
    norm_num at hcon
  have hwz : pyIsClose (-1999/2000) 0 (1/1000000000) (1/1000) = false := by
    unfold pyIsClose
    rw [decide_eq_false_iff_not]
    intro hcon
    rw [show ((-1999/2000 : ℚ) - 0) = -1999/2000 by norm_num, habsz,
      show |(0 : ℚ)| = 0 by norm_num,
      show max (1999/2000 : ℚ) 0 = 1999/2000 from max_eq_left (by norm_num),
      show max ((1/1000000000 : ℚ) * (1999/2000)) (1/1000) = 1/1000 from
        max_eq_right (by norm_num)] at hcon
    norm_num at hcon
  have hcls : classifySurfaceType (-1999/2000) = "WallSurface" := by
    unfold classifySurfaceType
    rw [if_neg (by rw [hg]; simp)]
    rw [if_pos ?_]
    rw [Bool.or_eq_true_iff]
    refine Or.inr ?_
    rw [Bool.and_eq_true_iff]
    exact ⟨decide_eq_true (by norm_num), by rw [hg]; rfl⟩
  have hpres : isPreserved ([] : List SemSurf) ((-1999/2000 : ℚ), (0 : ℤ)).2
      = false := by decide
  have heval : calcSemantics [] [(-1999/2000, 0)]
      = ([{ stype := "WallSurface" }], [0]) := by
    unfold calcSemantics calcSemanticsAux
    rw [if_neg (by rw [hpres]; simp)]
    simp only [calcSemanticsAux, hcls]
    rfl
  refine ⟨?_, ?_, by decide⟩
  · rw [heval]
    rfl
  · unfold claimedClassify
    rw [if_pos ?_]
    rw [show ((-1999/2000 : ℚ) + 1) = 1/2000 by norm_num,
      show |(1/2000 : ℚ)| = 1/2000 from abs_of_nonneg (by norm_num)]
    norm_num

/-- C8 (amended): in the bulk re-classification, every face whose tag
resolves to a Window/Door surface keeps its tag unchanged and is excluded
from re-classification; every other face is retyped from its normal's
vertical component z — GroundSurface when |z+1| is within the Python-default
relative tolerance 1e-9 (not ±1e-3), WallSurface when |z| ≤ 1e-3 or z is
negative (excluding the ground case), RoofSurface otherwise — and tagged
with a valid index of a surface of that type. -/
theorem calc_semantics_classification (surfaces : List SemSurf)
    (faces : List (ℚ × ℤ)) :
    (calcSemantics surfaces faces).2.length = faces.length
    ∧ ∀ i, i < faces.length →
        (isPreserved surfaces (faces.getD i (0, 0)).2 = true →
            (calcSemantics surfaces faces).2.getD i 0 = (faces.getD i (0, 0)).2)
        ∧ (isPreserved surfaces (faces.getD i (0, 0)).2 = false →
            ∃ k : ℕ, (calcSemantics surfaces faces).2.getD i 0 = (k : ℤ)
              ∧ k < (calcSemantics surfaces faces).1.length
              ∧ ((calcSemantics surfaces faces).1.getD k { stype := "" }).stype
                  = specClassify (faces.getD i (0, 0)).1) := by
  obtain ⟨_, hlen, hidx⟩ := calcSemanticsAux_spec surfaces faces surfaces
  refine ⟨hlen, ?_⟩
  intro i hi
  refine ⟨(hidx i hi).1, ?_⟩
  intro hf
  obtain ⟨k, h1, h2, h3⟩ := (hidx i hi).2 hf
  exact ⟨k, h1, h2, h3.trans (classifySurfaceType_eq_spec _)⟩

/-- Witness for C8: a Window-tagged face keeps its tag 0 verbatim, and an
untagged face (tag −1) receives a valid index of a surface typed per the
normal rule. -/
theorem calc_semantics_classification_witness :
    (calcSemantics [{ stype := "Window" }]
        [((1 : ℚ), 0), ((0 : ℚ), -1)]).2.getD 0 0 = 0
    ∧ ∃ k : ℕ,
        (calcSemantics [{ stype := "Window" }]
            [((1 : ℚ), 0), ((0 : ℚ), -1)]).2.getD 1 0 = (k : ℤ)
        ∧ k < (calcSemantics [{ stype := "Window" }]
            [((1 : ℚ), 0), ((0 : ℚ), -1)]).1.length
        ∧ ((calcSemantics [{ stype := "Window" }]
            [((1 : ℚ), 0), ((0 : ℚ), -1)]).1.getD k { stype := "" }).stype
            = specClassify (0 : ℚ) := by
  have h := calc_semantics_classification [{ stype := "Window" }]
    [((1 : ℚ), 0), ((0 : ℚ), -1)]
  constructor
  · have h0 := (h.2 0 (by norm_num)).1 (by decide)
    simpa using h0
  · have h1 := (h.2 1 (by norm_num)).2 (by decide)
    simpa using h1

mutual

theorem leavesOf_mapLeaves (f : ℤ → ℤ) :
    ∀ t, leavesOf (mapLeaves f t) = (leavesOf t).map f
  | .leaf _ => rfl
  | .node cs => leavesOfList_mapLeavesList f cs

theorem leavesOfList_mapLeavesList (f : ℤ → ℤ) :
    ∀ ts, leavesOfList (mapLeavesList f ts) = (leavesOfList ts).map f
  | [] => rfl
  | t :: ts => by
      simp only [mapLeavesList, leavesOfList, List.map_append]
      rw [leavesOf_mapLeaves f t, leavesOfList_mapLeavesList f ts]

end

mutual

theorem mapLeaves_id_of (f : ℤ → ℤ) :
    ∀ t, (∀ i ∈ leavesOf t, f i = i) → mapLeaves f t = t
  | .leaf i, h => by
      have : f i = i := h i (by simp [leavesOf])
      simp [mapLeaves, this]
  | .node cs, h => congrArg BTree.node (mapLeavesList_id_of f cs h)

theorem mapLeavesList_id_of (f : ℤ → ℤ) :
    ∀ ts, (∀ i ∈ leavesOfList ts, f i = i) → mapLeavesList f ts = ts
  | [], _ => rfl
  | t :: ts, h => by
      have h1 : ∀ i ∈ leavesOf t, f i = i := fun i hi =>
        h i (by simp only [leavesOfList, List.mem_append]; exact Or.inl hi)
      have h2 : ∀ i ∈ leavesOfList ts, f i = i := fun i hi =>
        h i (by simp only [leavesOfList, List.mem_append]; exact Or.inr hi)
      simp only [mapLeavesList]
      rw [mapLeaves_id_of f t h1, mapLeavesList_id_of f ts h2]

end

theorem dedupAux_extends : ∀ (vs seen : List EV), seen <+: (dedupAux seen vs).1
  | [], _ => List.prefix_refl _
  | v :: rest, seen => by
      unfold dedupAux
      by_cases h : v ∈ seen
      · rw [if_pos h]
        exact dedupAux_extends rest seen
      · rw [if_neg h]
        exact (List.prefix_append seen [v]).trans
          (dedupAux_extends rest (seen ++ [v]))

theorem dedupAux_nodup : ∀ (vs seen : List EV),
    seen.Nodup → (dedupAux seen vs).1.Nodup
  | [], _, hn => hn
  | v :: rest, seen, hn => by
      unfold dedupAux
      by_cases h : v ∈ seen
      · rw [if_pos h]
        exact dedupAux_nodup rest seen hn
      · rw [if_neg h]
        exact dedupAux_nodup rest (seen ++ [v])
          (by simp [List.nodup_append, hn, h])

theorem dedupAux_len_le : ∀ (vs seen : List EV),
    (dedupAux seen vs).1.length ≤ seen.length + vs.length
  | [], seen => by simp [dedupAux]
  | v :: rest, seen => by
      unfold dedupAux
      by_cases h : v ∈ seen
      · rw [if_pos h]
        have := dedupAux_len_le rest seen
        simp only [List.length_cons]
        omega
      · rw [if_neg h]
        dsimp only
        have := dedupAux_len_le rest (seen ++ [v])
        simp only [List.length_append, List.length_cons, List.length_nil] at this ⊢
        omega

theorem dedupAux_map_lt : ∀ (vs seen : List EV),
    ∀ j ∈ (dedupAux seen vs).2, j < (dedupAux seen vs).1.length
  | [], seen => by simp [dedupAux]
  | v :: rest, seen => by
      unfold dedupAux
      by_cases h : v ∈ seen
      · rw [if_pos h]
        intro j hj
        rcases List.mem_cons.mp hj with rfl | hj
        · exact lt_of_lt_of_le (firstIdx_lt seen v h)
            (dedupAux_extends rest seen).length_le
        · exact dedupAux_map_lt rest seen j hj
      · rw [if_neg h]
        dsimp only
        intro j hj
        rcases List.mem_cons.mp hj with rfl | hj
        · have hle := (dedupAux_extends rest (seen ++ [v])).length_le
          simp only [List.length_append, List.length_cons, List.length_nil] at hle
          omega
        · exact dedupAux_map_lt rest (seen ++ [v]) j hj

theorem dedupAux_of_nodup : ∀ (vs seen : List EV), (seen ++ vs).Nodup →
    dedupAux seen vs = (seen ++ vs, List.range' seen.length vs.length)
  | [], seen, _ => by simp [dedupAux, List.range']
  | v :: rest, seen, hn => by
      unfold dedupAux
      have hv : v ∉ seen := by
        intro hmem
        have := List.disjoint_of_nodup_append hn
        exact this hmem (by simp)
      rw [if_neg hv]
      have hn' : ((seen ++ [v]) ++ rest).Nodup := by
        rw [List.append_assoc]
        simpa using hn
      rw [dedupAux_of_nodup rest (seen ++ [v]) hn']
      refine Prod.ext ?_ ?_
      · simp
      · show seen.length :: List.range' (seen ++ [v]).length rest.length
          = List.range' seen.length (v :: rest).length
        simp only [List.length_append, List.length_cons, List.length_nil]
        rfl

theorem pyGet_mem {α : Type} (l : List α) (i : ℤ) (a : α)
    (h : pyGet l i = some a) : a ∈ l := by
  unfold pyGet at h
  split_ifs at h
  · exact List.getElem?_mem h
  · exact List.getElem?_mem h

theorem pyGet_none_range {α : Type} (l : List α) (i : ℤ)
    (h : pyGet l i = none) : (l.length : ℤ) ≤ i ∨ i < -(l.length : ℤ) := by
  unfold pyGet at h
  split_ifs at h with h1 h2
  · left
    have := List.getElem?_eq_none_iff.mp h
    omega
  · exfalso
    have hlt : ((l.length : ℤ) + i).toNat < l.length := by omega
    rw [List.getElem?_eq_getElem hlt] at h
    simp at h
  · right
    omega

theorem pyGet_range_eq (n : ℕ) (i : ℤ) (h0 : 0 ≤ i) (hn : i < (n : ℤ)) :
    pyGet (List.range n) i = some i.toNat := by
  unfold pyGet
  rw [if_pos h0]
  have : i.toNat < n := by omega
  simp [List.getElem?_range this]

theorem pyGet_none_of_ge {α : Type} (l : List α) (i : ℤ)
    (h : (l.length : ℤ) ≤ i) : pyGet l i = none := by
  unfold pyGet
  rw [if_pos (by omega : (0:ℤ) ≤ i)]
  rw [List.getElem?_eq_none_iff]
  omega

theorem pyGet_none_of_lt_neg {α : Type} (l : List α) (i : ℤ)
    (h : i < -(l.length : ℤ)) : pyGet l i = none := by
  unfold pyGet
  rw [if_neg (by omega : ¬(0:ℤ) ≤ i), if_neg (by omega : ¬(0:ℤ) ≤ (l.length : ℤ) + i)]

theorem collect_foldl_nodup (n : ℕ) :
    ∀ (leaves : List ℤ) (acc : List ℕ), acc.Nodup →
      (leaves.foldl (collectStep n) acc).Nodup
  | [], _, h => h
  | i :: rest, acc, h => by
      rw [List.foldl_cons]
      apply collect_foldl_nodup n rest
      unfold collectStep
      split_ifs with h1 h2
      · exact h
      · simp [List.nodup_append, h, h2]
      · exact h

theorem collect_foldl_mem (n : ℕ) :
    ∀ (leaves : List ℤ) (acc : List ℕ) (x : ℕ),
      x ∈ leaves.foldl (collectStep n) acc
        ↔ x ∈ acc ∨ ((x : ℤ) ∈ leaves ∧ x < n)
  | [], acc, x => by simp
  | i :: rest, acc, x => by
      rw [List.foldl_cons, collect_foldl_mem n rest]
      have hstep : x ∈ collectStep n acc i ↔ x ∈ acc ∨ ((x : ℤ) = i ∧ x < n) := by
        unfold collectStep
        split_ifs with h1 h2
        · constructor
          · exact Or.inl
          · rintro (hx | ⟨hxi, hxn⟩)
            · exact hx
            · have : x = i.toNat := by omega
              rw [this]
              exact h2
        · rw [List.mem_append, List.mem_singleton]
          constructor
          · rintro (hx | hx)
            · exact Or.inl hx
            · right
              omega
          · rintro (hx | ⟨hxi, hxn⟩)
            · exact Or.inl hx
            · right
              omega
        · constructor
          · exact Or.inl
          · rintro (hx | ⟨hxi, hxn⟩)
            · exact hx
            · exfalso
              omega
      rw [hstep]
      constructor
      · rintro ((hx | hxi) | hrest)
        · exact Or.inl hx
        · exact Or.inr ⟨by rw [hxi.1]; exact List.mem_cons_self i rest, hxi.2⟩
        · exact Or.inr ⟨List.mem_cons_of_mem _ hrest.1, hrest.2⟩
      · rintro (hx | ⟨hmem, hxn⟩)
        · exact Or.inl (Or.inl hx)
        · rcases List.mem_cons.mp hmem with heq | hmem'
          · exact Or.inl (Or.inr ⟨heq, hxn⟩)
          · exact Or.inr ⟨hmem', hxn⟩

theorem collectUsed_nodup (n : ℕ) (leaves : List ℤ) :
    (collectUsed n leaves).Nodup :=
  collect_foldl_nodup n leaves [] List.nodup_nil

theorem collectUsed_mem (n : ℕ) (leaves : List ℤ) (x : ℕ) :
    x ∈ collectUsed n leaves ↔ (x : ℤ) ∈ leaves ∧ x < n := by
  unfold collectUsed
  rw [collect_foldl_mem n leaves [] x]
  simp

theorem firstIdx_getD_of_nodup {α : Type} [DecidableEq α] (d : α) :
    ∀ (l : List α), l.Nodup → ∀ j, j < l.length → firstIdx l (l.getD j d) = j
  | [], _, j, hj => by simp at hj
  | v :: rest, _, 0, _ => by simp [firstIdx, List.getD_cons_zero]
  | v :: rest, hn, j + 1, hj => by
      have hjr : j < rest.length := by simpa using hj
      have hmem : rest.getD j d ∈ rest := by
        rw [List.getD_eq_getElem rest d hjr]
        exact List.getElem_mem hjr
      have hv : ¬v = rest.getD j d := by
        intro heq
        have hni := (List.nodup_cons.mp hn).1
        rw [heq] at hni
        exact hni hmem
      simp only [firstIdx, List.getD_cons_succ, if_neg hv]
      rw [firstIdx_getD_of_nodup d rest (List.nodup_cons.mp hn).2 j hjr]

theorem nodup_sub_range_length_le (ordered : List ℕ) (n : ℕ)
    (ho : ordered.Nodup) (hsub : ∀ x ∈ ordered, x < n) :
    ordered.length ≤ n := by
  have hsubset : ordered.toFinset ⊆ Finset.range n := by
    intro x hx
    rw [Finset.mem_range]
    exact hsub x (List.mem_toFinset.mp hx)
  calc ordered.length = ordered.toFinset.card :=
        (List.toFinset_card_of_nodup ho).symm
    _ ≤ (Finset.range n).card := Finset.card_le_card hsubset
    _ = n := Finset.card_range n

theorem nodup_range_cover_length_eq (ordered : List ℕ) (n : ℕ)
    (ho : ordered.Nodup) (hsub : ∀ x ∈ ordered, x < n)
    (hcov : ∀ j, j < n → j ∈ ordered) : ordered.length = n := by
  have hset : ordered.toFinset = Finset.range n := by
    apply Finset.Subset.antisymm
    · intro x hx
      rw [Finset.mem_range]
      exact hsub x (List.mem_toFinset.mp hx)
    · intro x hx
      rw [Finset.mem_range] at hx
      exact List.mem_toFinset.mpr (hcov x hx)
  calc ordered.length = ordered.toFinset.card :=
        (List.toFinset_card_of_nodup ho).symm
    _ = (Finset.range n).card := by rw [hset]
    _ = n := Finset.card_range n

theorem mem_of_nodup_sub_range_full (ordered : List ℕ) (n : ℕ)
    (ho : ordered.Nodup) (hsub : ∀ x ∈ ordered, x < n)
    (hlen : ordered.length = n) : ∀ j, j < n → j ∈ ordered := by
  have hsubset : ordered.toFinset ⊆ Finset.range n := fun x hx =>
    Finset.mem_range.mpr (hsub x (List.mem_toFinset.mp hx))
  have hcard : (Finset.range n).card ≤ ordered.toFinset.card := by
    rw [List.toFinset_card_of_nodup ho, hlen, Finset.card_range]
  have hset : ordered.toFinset = Finset.range n :=
    Finset.eq_of_subset_of_card_le hsubset hcard
  intro j hj
  have hmem : j ∈ ordered.toFinset := by
    rw [hset]
    exact Finset.mem_range.mpr hj
  exact List.mem_toFinset.mp hmem

theorem nodup_map_getD (verts : List EV) (hn : verts.Nodup)
    (ordered : List ℕ) (ho : ordered.Nodup)
    (hlt : ∀ x ∈ ordered, x < verts.length) :
    (ordered.map (fun j => verts.getD j (0, 0, 0))).Nodup := by
  refine List.Nodup.map_on ?_ ho
  intro x hx y hy heq
  have hxl := hlt x hx
  have hyl := hlt y hy
  rw [List.getD_eq_getElem verts _ hxl, List.getD_eq_getElem verts _ hyl] at heq
  exact (List.Nodup.getElem_inj_iff hn).mp heq

theorem dotR_comm (a b : Vec3R) : dotR a b = dotR b a := by
  unfold dotR
  ring

theorem dotR_smul (c : ℝ) (a b : Vec3R) : dotR (smulR c a) b = c * dotR a b := by
  unfold dotR smulR
  ring

theorem dotR_self_nonneg (a : Vec3R) : 0 ≤ dotR a a := by
  unfold dotR
  have hx := mul_self_nonneg a.x
  have hy := mul_self_nonneg a.y
  have hz := mul_self_nonneg a.z
  linarith

theorem crossR_dot_left (a b : Vec3R) : dotR (crossR a b) a = 0 := by
  unfold dotR crossR
  ring

theorem crossR_dot_right (a b : Vec3R) : dotR (crossR a b) b = 0 := by
  unfold dotR crossR
  ring

theorem crossR_lagrange (a b : Vec3R) :
    dotR (crossR a b) (crossR a b) = dotR a a * dotR b b - (dotR a b) ^ 2 := by
  unfold dotR crossR
  ring

theorem dotR_normalize_self (v : Vec3R) (h : dotR v v ≠ 0) :
    dotR (normalizeR v) (normalizeR v) = 1 := by
  unfold normalizeR normR
  rw [dotR_smul]
  rw [dotR_comm v (smulR (Real.sqrt (dotR v v))⁻¹ v)]
  rw [dotR_smul]
  have hs : Real.sqrt (dotR v v) * Real.sqrt (dotR v v) = dotR v v :=
    Real.mul_self_sqrt (dotR_self_nonneg v)
  have hsne : Real.sqrt (dotR v v) ≠ 0 := by
    intro h0
    rw [h0, mul_zero] at hs
    exact h hs.symm
  field_simp

theorem normalizeR_dot_zero (v w : Vec3R) (h : dotR v w = 0) :
    dotR (normalizeR v) w = 0 := by
  unfold normalizeR
  rw [dotR_smul, h, mul_zero]

theorem normR_eq_one (v : Vec3R) (h : dotR v v = 1) : normR v = 1 := by
  rw [normR, h, Real.sqrt_one]

/-- The claim's orthonormality fails in the horizontal special case: for the
unit normal `(15/113, 0, 112/113)` (a roof face tilted ~7.6° from vertical,
`normal·up = 112/113 > 0.99`), the tangent defaults to world X, and the
tangent–normal dot product is `15/113 ≈ 0.133`, far above the 1e-6
tolerance. -/
theorem frame_orthonormality_counterexample :
    ¬(|dotR (matTangent (getFaceOrthoMatrix ⟨15/113, 0, 112/113⟩ ⟨0, 0, 0⟩))
        (matNormal (getFaceOrthoMatrix ⟨15/113, 0, 112/113⟩ ⟨0, 0, 0⟩))|
      ≤ 1/1000000) := by
  have hq : dotR ⟨15/113, 0, 112/113⟩ ⟨15/113, 0, 112/113⟩ = 1 := by
    unfold dotR
    norm_num
  have hnorm : normR ⟨15/113, 0, 112/113⟩ = 1 := normR_eq_one _ hq
  have hnormalized : normalizeR ⟨15/113, 0, 112/113⟩ = ⟨15/113, 0, 112/113⟩ := by
    rw [normalizeR, hnorm]
    show smulR 1⁻¹ _ = _
    unfold smulR
    norm_num
  have hdotup : dotR ⟨15/113, 0, 112/113⟩ worldUp = 112/113 := by
    unfold dotR worldUp
    norm_num
  have hbranch : orthoTangent ⟨15/113, 0, 112/113⟩ = ⟨1, 0, 0⟩ := by
    unfold orthoTangent
    rw [if_pos]
    rw [hdotup, abs_of_nonneg (by norm_num : (0:ℝ) ≤ 112/113)]
    norm_num
  have hMt : matTangent (getFaceOrthoMatrix ⟨15/113, 0, 112/113⟩ ⟨0, 0, 0⟩)
      = orthoTangent (normalizeR ⟨15/113, 0, 112/113⟩) := rfl
  have hMn : matNormal (getFaceOrthoMatrix ⟨15/113, 0, 112/113⟩ ⟨0, 0, 0⟩)
      = normalizeR ⟨15/113, 0, 112/113⟩ := rfl
  rw [hMt, hMn, hnormalized, hbranch]
  have : dotR ⟨1, 0, 0⟩ ⟨15/113, 0, 112/113⟩ = 15/113 := by
    unfold dotR
    norm_num
  rw [this, abs_of_nonneg (by norm_num : (0:ℝ) ≤ 15/113)]
  norm_num

/-- C6 (amended): for every non-degenerate face whose normalized normal is
not in the horizontal special case (`|normal·up| ≤ 0.99`), the tangent,
bitangent, and normal columns of the returned frame are exactly mutually
orthogonal unit vectors (hence within any tolerance); in the horizontal case
the tangent defaults to world X and the tangent–normal product can reach
`|normal.x|`, so the 1e-6 bound does not hold there. -/
theorem frame_orthonormal_nonhorizontal (n c : Vec3R)
    (hn : dotR n n ≠ 0)
    (hz : |dotR (normalizeR n) worldUp| ≤ 99/100) :
    dotR (matTangent (getFaceOrthoMatrix n c))
        (matNormal (getFaceOrthoMatrix n c)) = 0
    ∧ dotR (matBitangent (getFaceOrthoMatrix n c))
        (matNormal (getFaceOrthoMatrix n c)) = 0
    ∧ dotR (matTangent (getFaceOrthoMatrix n c))
        (matBitangent (getFaceOrthoMatrix n c)) = 0
    ∧ normR (matTangent (getFaceOrthoMatrix n c)) = 1
    ∧ normR (matBitangent (getFaceOrthoMatrix n c)) = 1
    ∧ normR (matNormal (getFaceOrthoMatrix n c)) = 1 := by
  have hMt : matTangent (getFaceOrthoMatrix n c)
      = orthoTangent (normalizeR n) := rfl
  have hMb : matBitangent (getFaceOrthoMatrix n c)
      = normalizeR (crossR (normalizeR n) (orthoTangent (normalizeR n))) := rfl
  have hMn : matNormal (getFaceOrthoMatrix n c) = normalizeR n := rfl
  have hu1 : dotR (normalizeR n) (normalizeR n) = 1 := dotR_normalize_self n hn
  have hbr : orthoTangent (normalizeR n)
      = normalizeR (crossR worldUp (normalizeR n)) := by
    unfold orthoTangent
    rw [if_neg (not_lt.mpr hz)]
  have hupup : dotR worldUp worldUp = 1 := by
    unfold dotR worldUp
    norm_num
  have hctq : dotR (crossR worldUp (normalizeR n)) (crossR worldUp (normalizeR n))
      = 1 - (dotR worldUp (normalizeR n)) ^ 2 := by
    rw [crossR_lagrange, hupup, hu1]
    ring
  have hzsq : (dotR worldUp (normalizeR n)) ^ 2 ≤ (99/100) ^ 2 := by
    rw [dotR_comm worldUp (normalizeR n), ← sq_abs]
    exact pow_le_pow_left₀ (abs_nonneg _) hz 2
  have hctne : dotR (crossR worldUp (normalizeR n)) (crossR worldUp (normalizeR n))
      ≠ 0 := by
    rw [hctq]
    nlinarith
  have hctu : dotR (crossR worldUp (normalizeR n)) (normalizeR n) = 0 :=
    crossR_dot_right worldUp (normalizeR n)
  have htt : dotR (orthoTangent (normalizeR n)) (orthoTangent (normalizeR n))
      = 1 := by
    rw [hbr]
    exact dotR_normalize_self _ hctne
  have htu : dotR (orthoTangent (normalizeR n)) (normalizeR n) = 0 := by
    rw [hbr]
    exact normalizeR_dot_zero _ _ hctu
  have hcbu : dotR (crossR (normalizeR n) (orthoTangent (normalizeR n)))
      (normalizeR n) = 0 :=
    crossR_dot_left _ _
  have hcbt : dotR (crossR (normalizeR n) (orthoTangent (normalizeR n)))
      (orthoTangent (normalizeR n)) = 0 :=
    crossR_dot_right _ _
  have hcbq : dotR (crossR (normalizeR n) (orthoTangent (normalizeR n)))
      (crossR (normalizeR n) (orthoTangent (normalizeR n))) = 1 := by
    rw [crossR_lagrange, hu1, htt, dotR_comm (normalizeR n), htu]
    ring
  have hbb : dotR
      (normalizeR (crossR (normalizeR n) (orthoTangent (normalizeR n))))
      (normalizeR (crossR (normalizeR n) (orthoTangent (normalizeR n)))) = 1 :=
    dotR_normalize_self _ (by rw [hcbq]; norm_num)
  have hbu : dotR
      (normalizeR (crossR (normalizeR n) (orthoTangent (normalizeR n))))
      (normalizeR n) = 0 :=
    normalizeR_dot_zero _ _ hcbu
  have hbt : dotR
      (normalizeR (crossR (normalizeR n) (orthoTangent (normalizeR n))))
      (orthoTangent (normalizeR n)) = 0 :=
    normalizeR_dot_zero _ _ hcbt
  rw [hMt, hMb, hMn]
  exact ⟨htu, hbu, by rw [dotR_comm]; exact hbt,
    normR_eq_one _ htt, normR_eq_one _ hbb, normR_eq_one _ hu1⟩

/-- Witness for C6 at a vertical wall normal `(1,0,0)`: the produced frame is
exactly orthonormal. -/
theorem frame_orthonormal_nonhorizontal_witness :
    dotR (matTangent (getFaceOrthoMatrix ⟨1, 0, 0⟩ ⟨0, 0, 0⟩))
        (matNormal (getFaceOrthoMatrix ⟨1, 0, 0⟩ ⟨0, 0, 0⟩)) = 0
    ∧ dotR (matBitangent (getFaceOrthoMatrix ⟨1, 0, 0⟩ ⟨0, 0, 0⟩))
        (matNormal (getFaceOrthoMatrix ⟨1, 0, 0⟩ ⟨0, 0, 0⟩)) = 0
    ∧ dotR (matTangent (getFaceOrthoMatrix ⟨1, 0, 0⟩ ⟨0, 0, 0⟩))
        (matBitangent (getFaceOrthoMatrix ⟨1, 0, 0⟩ ⟨0, 0, 0⟩)) = 0
    ∧ normR (matTangent (getFaceOrthoMatrix ⟨1, 0, 0⟩ ⟨0, 0, 0⟩)) = 1
    ∧ normR (matBitangent (getFaceOrthoMatrix ⟨1, 0, 0⟩ ⟨0, 0, 0⟩)) = 1
    ∧ normR (matNormal (getFaceOrthoMatrix ⟨1, 0, 0⟩ ⟨0, 0, 0⟩)) = 1 := by
  have hq : dotR ⟨1, 0, 0⟩ ⟨1, 0, 0⟩ = 1 := by
    unfold dotR
    norm_num
  have hnormalized : normalizeR ⟨1, 0, 0⟩ = ⟨1, 0, 0⟩ := by
    rw [normalizeR, normR_eq_one _ hq]
    show smulR 1⁻¹ _ = _
    unfold smulR
    norm_num
  refine frame_orthonormal_nonhorizontal ⟨1, 0, 0⟩ ⟨0, 0, 0⟩ (by rw [hq]; norm_num) ?_
  rw [hnormalized]
  have : dotR ⟨1, 0, 0⟩ worldUp = 0 := by
    unfold dotR worldUp
    norm_num
  rw [this]
  norm_num

theorem dedupAux_map_length : ∀ (vs seen : List EV),
    (dedupAux seen vs).2.length = vs.length
  | [], _ => rfl
  | v :: rest, seen => by
      unfold dedupAux
      by_cases h : v ∈ seen
      · rw [if_pos h]
        dsimp only
        rw [List.length_cons, dedupAux_map_length rest seen, List.length_cons]
      · rw [if_neg h]
        dsimp only
        rw [List.length_cons, dedupAux_map_length rest (seen ++ [v]),
          List.length_cons]

theorem LeafOk_zero (i : ℤ) : LeafOk 0 i := by
  unfold LeafOk
  omega

theorem removeDuplicates_invariants (s : ExportState) :
    (removeDuplicates s).1.vertices.Nodup
    ∧ (∀ i ∈ leavesOfList (removeDuplicates s).1.boundaries,
        LeafOk (removeDuplicates s).1.vertices.length i) := by
  unfold removeDuplicates
  by_cases he : s.vertices.isEmpty
  · rw [if_pos he]
    have h0 : s.vertices = [] := List.isEmpty_iff.mp he
    constructor
    · dsimp only
      rw [h0]
      exact List.nodup_nil
    · intro i _
      dsimp only
      rw [h0]
      simpa using LeafOk_zero i
  · rw [if_neg he]
    dsimp only
    constructor
    · exact dedupAux_nodup s.vertices [] List.nodup_nil
    · intro i hi
      rw [leavesOfList_mapLeavesList] at hi
      obtain ⟨i0, hi0, rfl⟩ := List.mem_map.mp hi
      unfold dedupRemap
      cases hp : pyGet (dedupAux [] s.vertices).2 i0 with
      | some j =>
          dsimp only
          have hjlt := dedupAux_map_lt s.vertices [] j (pyGet_mem _ _ _ hp)
          unfold LeafOk
          left
          omega
      | none =>
          dsimp only
          have hr := pyGet_none_range _ _ hp
          rw [dedupAux_map_length s.vertices []] at hr
          have hle := dedupAux_len_le s.vertices []
          simp only [List.length_nil, Nat.zero_add] at hle
          unfold LeafOk
          omega

theorem removeOrphans_invariants (d : ExportState)
    (hnd : d.vertices.Nodup)
    (hok : ∀ i ∈ leavesOfList d.boundaries, LeafOk d.vertices.length i) :
    (removeOrphans d).1.vertices.Nodup
    ∧ (∀ i ∈ leavesOfList (removeOrphans d).1.boundaries,
        LeafOk (removeOrphans d).1.vertices.length i)
    ∧ (∀ j, j < (removeOrphans d).1.vertices.length →
        (j : ℤ) ∈ leavesOfList (removeOrphans d).1.boundaries) := by
  unfold removeOrphans
  by_cases he : d.vertices.isEmpty
  · rw [if_pos he]
    have h0 : d.vertices = [] := List.isEmpty_iff.mp he
    refine ⟨hnd, ?_, ?_⟩
    · intro i _
      dsimp only
      rw [h0]
      simpa using LeafOk_zero i
    · intro j hj
      dsimp only at hj
      rw [h0] at hj
      simp at hj
  · rw [if_neg he]
    have hOnodup : (collectUsed d.vertices.length (leavesOfList d.boundaries)).Nodup :=
      collectUsed_nodup _ _
    have hOsub : ∀ x ∈ collectUsed d.vertices.length (leavesOfList d.boundaries),
        x < d.vertices.length :=
      fun x hx => ((collectUsed_mem _ _ x).mp hx).2
    have hOmemleaf : ∀ x ∈ collectUsed d.vertices.length (leavesOfList d.boundaries),
        (x : ℤ) ∈ leavesOfList d.boundaries :=
      fun x hx => ((collectUsed_mem _ _ x).mp hx).1
    have hColl : ∀ i ∈ leavesOfList d.boundaries, 0 ≤ i → i < (d.vertices.length : ℤ) →
        i.toNat ∈ collectUsed d.vertices.length (leavesOfList d.boundaries) := by
      intro i hi h0 hlt
      rw [collectUsed_mem]
      constructor
      · rw [Int.toNat_of_nonneg h0]
        exact hi
      · omega
    by_cases hfull : (collectUsed d.vertices.length (leavesOfList d.boundaries)).length
        = d.vertices.length
    · rw [if_pos hfull]
      refine ⟨hnd, hok, ?_⟩
      intro j hj
      dsimp only at hj
      exact hOmemleaf j (mem_of_nodup_sub_range_full _ _ hOnodup hOsub hfull j hj)
    · rw [if_neg hfull]
      dsimp only
      rw [List.length_map]
      refine ⟨nodup_map_getD d.vertices hnd _ hOnodup hOsub, ?_, ?_⟩
      · intro i hi
        rw [leavesOfList_mapLeavesList] at hi
        obtain ⟨i0, hi0, rfl⟩ := List.mem_map.mp hi
        unfold orphanRemap
        by_cases hc : 0 ≤ i0
            ∧ i0.toNat ∈ collectUsed d.vertices.length (leavesOfList d.boundaries)
        · rw [if_pos hc]
          have hflt := firstIdx_lt _ i0.toNat hc.2
          unfold LeafOk
          left
          omega
        · rw [if_neg hc]
          have hok0 := hok i0 hi0
          have hnle := nodup_sub_range_length_le _ _ hOnodup hOsub
          unfold LeafOk at hok0 ⊢
          rcases hok0 with ⟨h0, hlt⟩ | hrest
          · exact absurd ⟨h0, hColl i0 hi0 h0 hlt⟩ hc
          · omega
      · intro j hj
        rw [leavesOfList_mapLeavesList]
        have hjo : (collectUsed d.vertices.length (leavesOfList d.boundaries)).getD j 0
            ∈ collectUsed d.vertices.length (leavesOfList d.boundaries) := by
          rw [List.getD_eq_getElem _ 0 hj]
          exact List.getElem_mem hj
        refine List.mem_map.mpr
          ⟨(((collectUsed d.vertices.length (leavesOfList d.boundaries)).getD j 0 : ℕ) : ℤ),
           hOmemleaf _ hjo, ?_⟩
        unfold orphanRemap
        rw [if_pos ⟨Int.natCast_nonneg _, by rw [Int.toNat_natCast]; exact hjo⟩]
        rw [Int.toNat_natCast, firstIdx_getD_of_nodup 0 _ hOnodup j hj]

theorem removeDuplicates_id (s1 : ExportState)
    (I1 : s1.vertices.Nodup)
    (I2 : ∀ i ∈ leavesOfList s1.boundaries, LeafOk s1.vertices.length i) :
    removeDuplicates s1 = (s1, 0) := by
  unfold removeDuplicates
  by_cases he : s1.vertices.isEmpty
  · rw [if_pos he]
  · rw [if_neg he]
    dsimp only
    have hded : dedupAux [] s1.vertices
        = (s1.vertices, List.range' 0 s1.vertices.length) := by
      have h := dedupAux_of_nodup s1.vertices [] (by simpa using I1)
      simpa using h
    rw [hded]
    have hid : mapLeavesList (dedupRemap (List.range' 0 s1.vertices.length))
        s1.boundaries = s1.boundaries := by
      apply mapLeavesList_id_of
      intro i hi
      have hok := I2 i hi
      unfold dedupRemap
      rw [show List.range' 0 s1.vertices.length = List.range s1.vertices.length from
        (List.range_eq_range' s1.vertices.length).symm]
      rcases hok with ⟨h0, hlt⟩ | hge | hlneg
      · rw [pyGet_range_eq _ _ h0 hlt]
        simp [Int.toNat_of_nonneg h0]
      · rw [pyGet_none_of_ge]
        rw [List.length_range]
        exact hge
      · rw [pyGet_none_of_lt_neg]
        rw [List.length_range]
        exact hlneg
    rw [hid]
    refine Prod.ext rfl ?_
    simp

theorem removeOrphans_id (s1 : ExportState)
    (I3 : ∀ j, j < s1.vertices.length → (j : ℤ) ∈ leavesOfList s1.boundaries) :
    removeOrphans s1 = (s1, 0) := by
  unfold removeOrphans
  by_cases he : s1.vertices.isEmpty
  · rw [if_pos he]
  · rw [if_neg he]
    have hfull : (collectUsed s1.vertices.length (leavesOfList s1.boundaries)).length
        = s1.vertices.length := by
      apply nodup_range_cover_length_eq _ _ (collectUsed_nodup _ _)
        (fun x hx => ((collectUsed_mem _ _ x).mp hx).2)
      intro j hj
      rw [collectUsed_mem]
      exact ⟨I3 j hj, hj⟩
    dsimp only
    rw [if_pos hfull]

/-- C7: the global vertex cleanup (duplicate removal followed by orphan
removal with index remapping) is idempotent: a second application to the
result of a first removes zero duplicates and zero orphans and returns the
vertex array and every boundary tree unchanged. -/
theorem cleanup_vertices_idempotent (s : ExportState) :
    cleanupVertices (cleanupVertices s).1 = ((cleanupVertices s).1, 0, 0) := by
  obtain ⟨hd1, hd2⟩ := removeDuplicates_invariants s
  obtain ⟨I1, I2, I3⟩ := removeOrphans_invariants (removeDuplicates s).1 hd1 hd2
  show cleanupVertices (removeOrphans (removeDuplicates s).1).1 = _
  unfold cleanupVertices
  rw [removeDuplicates_id _ I1 I2]
  dsimp only
  rw [removeOrphans_id _ I3]

end CJE
